import Mathlib

/-
  Verification of the path-planning core of the wall-finishing robot backend.

  Shallow embedding conventions:
  * Python floats are idealized as exact rationals (ℚ) for coordinates and as
    real numbers (ℝ) for derived metric quantities (lengths, fitness, angles).
  * Grid cells are pairs of integers (row, col); `int()` truncation toward zero
    is `ratTrunc`.
  * A-star costs are represented exactly: a g-score is a pair (a, b) denoting
    a + b * sqrt 2, an f-score is a triple (a, b, n) denoting a + b * sqrt 2 +
    sqrt n; comparisons are decided by exact integer arithmetic.
  * The Python `random` module is an external collaborator; it is modelled as an
    explicit oracle (`Rng`) carrying its documented contracts, threaded through
    the genetic algorithm by a call counter.
-/

set_option maxRecDepth 4000

set_option allowUnsafeReducibility true

attribute [local semireducible] Rat.add Rat.mul Rat.sub Rat.div Rat.neg Rat.inv

/-- A waypoint dict {x, y, z} from the planners (coordinates in meters). -/
structure Waypoint where
  x : ℚ
  y : ℚ
  z : ℚ
deriving DecidableEq, Repr

/-- A grid cell (row, col). -/
abbrev Cell := ℤ × ℤ

/-- Python `int()` applied to an exact rational: truncation toward zero. -/
def ratTrunc (q : ℚ) : ℤ :=
  if 0 ≤ q then ⌊q⌋ else ⌈q⌉

/-- Embedding of `GridManager` (src/backend/app/algorithms/grid.py).
The occupancy bitmap is a function from cells to Bool (true = occupied). -/
structure GridManager where
  rows : ℕ
  cols : ℕ
  width : ℚ
  height : ℚ
  resolution : ℚ
  occ : Cell → Bool

/-- GridManager.__init__: cols = ceil(width/resolution), rows =
ceil(height/resolution), all cells free. -/
def GridManager.new (width height resolution : ℚ) : GridManager :=
  { rows := (⌈height / resolution⌉).toNat
    cols := (⌈width / resolution⌉).toNat
    width := width
    height := height
    resolution := resolution
    occ := fun _ => false }

/-- GridManager.is_valid. -/
def GridManager.is_valid (g : GridManager) (r c : ℤ) : Bool :=
  decide (0 ≤ r ∧ r < (g.rows : ℤ) ∧ 0 ≤ c ∧ c < (g.cols : ℤ))

/-- GridManager.is_free: in bounds and occupancy bit 0 (out of bounds: False). -/
def GridManager.is_free (g : GridManager) (r c : ℤ) : Bool :=
  g.is_valid r c && !(g.occ (r, c))

/-- GridManager.world_to_grid: floor division of world coordinates by the
resolution (Python `int()` truncation; arguments are nonnegative in all uses). -/
def GridManager.world_to_grid (g : GridManager) (x y : ℚ) : Cell :=
  (ratTrunc (y / g.resolution), ratTrunc (x / g.resolution))

/-- GridManager.grid_to_world: the world center of cell (r, c). -/
def GridManager.grid_to_world (g : GridManager) (r c : ℤ) : ℚ × ℚ :=
  ((c + 1/2) * g.resolution, (r + 1/2) * g.resolution)

/-- A waypoint dict {x, y, z: 0.0} built from a cell center, as produced by all
planners. -/
def centerWp (g : GridManager) (r c : ℤ) : Waypoint :=
  ⟨(g.grid_to_world r c).1, (g.grid_to_world r c).2, 0⟩

/-- The 4-connectivity moves of get_neighbors, in source order. -/
def movesBase : List Cell := [(-1, 0), (1, 0), (0, -1), (0, 1)]

/-- The extra diagonal moves of get_neighbors, in source order. -/
def movesDiag : List Cell := [(-1, -1), (-1, 1), (1, -1), (1, 1)]

/-- GridManager.get_neighbors: valid free neighbors in fixed move order. -/
def GridManager.get_neighbors (g : GridManager) (r c : ℤ) (diagonal : Bool) :
    List Cell :=
  (movesBase ++ if diagonal then movesDiag else []).filterMap fun m =>
    if g.is_valid (r + m.1) (c + m.2) && g.is_free (r + m.1) (c + m.2) then
      some (r + m.1, c + m.2)
    else none

/-- GridManager.get_free_cells: row-major list of free cells. -/
def GridManager.get_free_cells (g : GridManager) : List Cell :=
  (List.range g.rows).flatMap fun r =>
    (List.range g.cols).filterMap fun c =>
      if g.occ ((r : ℤ), (c : ℤ)) = false then some ((r : ℤ), (c : ℤ)) else none

/-- The count np.sum(grid == 0) used by calculate_coverage: the number of free
cells of the bitmap, i.e. the length of get_free_cells. -/
def GridManager.total_free (g : GridManager) : ℕ :=
  g.get_free_cells.length

/-- GridManager.calculate_coverage: percentage of free cells visited; returns
100.0 when the grid has no free cells. -/
def GridManager.calculate_coverage (g : GridManager) (visited : Finset Cell) : ℚ :=
  if g.total_free = 0 then 100
  else ((visited.card : ℚ) / (g.total_free : ℚ)) * 100

/-- calculate_distance (geometry.py): Euclidean distance between two waypoints,
using only x and y. -/
noncomputable def distR (p q : Waypoint) : ℝ :=
  Real.sqrt (((q.x - p.x : ℚ) : ℝ) ^ 2 + ((q.y - p.y : ℚ) : ℝ) ^ 2)

/-- calculate_path_length (geometry.py): sum of Euclidean segment lengths,
0 for fewer than two points. -/
noncomputable def calculate_path_length : List Waypoint → ℝ
  | p :: q :: rest => distR p q + calculate_path_length (q :: rest)
  | _ => 0

/-- A waypoint lies at the world center of some free cell of the grid. -/
def FreeCenter (g : GridManager) (w : Waypoint) : Prop :=
  ∃ r c : ℤ, g.is_free r c = true ∧ w = centerWp g r c

/-
  A-star planner (src/backend/app/algorithms/astar.py).

  Exact cost representation: a g-score is (a, b) : ℕ × ℕ denoting the real
  a + b * sqrt 2 (a counts axis steps, b diagonal steps); the f-score pushed on
  the heap is (a, b, n) : ℕ × ℕ × ℕ denoting a + b * sqrt 2 + sqrt n, where
  sqrt n is the Euclidean heuristic (n = dr^2 + dc^2).  Python compares floats;
  the embedding compares the denoted real numbers exactly, by integer
  arithmetic (repeated squaring with sign analysis).
-/

/-- A g-score (a, b), denoting a + b * sqrt 2. -/
abbrev GVal := ℕ × ℕ

/-- An f-score (a, b, n), denoting a + b * sqrt 2 + sqrt n. -/
abbrev FVal := ℕ × ℕ × ℕ

/-- The real number denoted by a g-score. -/
noncomputable def gvalR (v : GVal) : ℝ := (v.1 : ℝ) + (v.2 : ℝ) * Real.sqrt 2

/-- The real number denoted by an f-score. -/
noncomputable def fvalR (v : FVal) : ℝ :=
  (v.1 : ℝ) + (v.2.1 : ℝ) * Real.sqrt 2 + Real.sqrt (v.2.2 : ℝ)

/-- Sign of p + q * sqrt 2, by exact integer arithmetic. -/
def signZ2 (p q : ℤ) : Ordering :=
  if p = 0 ∧ q = 0 then .eq
  else if 0 ≤ p ∧ 0 ≤ q then .gt
  else if p ≤ 0 ∧ q ≤ 0 then .lt
  else if 0 < p then compare (p * p) (2 * (q * q))
  else compare (2 * (q * q)) (p * p)

/-- Sign of P + Q * sqrt 2 + sqrt K. -/
def signPlusSqrt (P Q : ℤ) (K : ℕ) : Ordering :=
  if K = 0 then signZ2 P Q
  else
    match signZ2 P Q with
    | .lt => signZ2 ((K : ℤ) - (P * P + 2 * Q * Q)) (-(2 * P * Q))
    | _ => .gt

/-- Sign of P + Q * sqrt 2 - sqrt K. -/
def signMinusSqrt (P Q : ℤ) (K : ℕ) : Ordering :=
  if K = 0 then signZ2 P Q
  else
    match signZ2 P Q with
    | .gt => signZ2 ((P * P + 2 * Q * Q) - (K : ℤ)) (2 * P * Q)
    | _ => .lt

/-- Exact comparison of the real numbers denoted by two f-scores
(the float comparison of the Python heap, idealized). -/
def cmpF (x y : FVal) : Ordering :=
  let p : ℤ := (x.1 : ℤ) - (y.1 : ℤ)
  let q : ℤ := (x.2.1 : ℤ) - (y.2.1 : ℤ)
  let n : ℕ := x.2.2
  let m : ℕ := y.2.2
  match signZ2 p q, compare n m with
  | .eq, d => d
  | s, .eq => s
  | .gt, .gt => .gt
  | .lt, .lt => .lt
  | .gt, .lt => signPlusSqrt (p * p + 2 * q * q - (n : ℤ) - (m : ℤ)) (2 * p * q) (4 * n * m)
  | .lt, .gt => signMinusSqrt ((n : ℤ) + (m : ℤ) - p * p - 2 * q * q) (-(2 * p * q)) (4 * n * m)

/-- Strict comparison of g-scores (tentative_g < g_score[neighbor]). -/
def gLt (t u : GVal) : Bool :=
  signZ2 ((t.1 : ℤ) - (u.1 : ℤ)) ((t.2 : ℤ) - (u.2 : ℤ)) = .lt

/-- AStarPlanner._heuristic: Euclidean distance sqrt (dr^2 + dc^2); the exact
representation keeps the radicand dr^2 + dc^2. -/
def hRad (v goal : Cell) : ℕ :=
  (v.1 - goal.1).natAbs ^ 2 + (v.2 - goal.2).natAbs ^ 2

/-- AStarPlanner._cost: diagonal moves cost sqrt 2, orthogonal moves cost 1. -/
def stepCost (u v : Cell) : GVal :=
  if (u.1 - v.1).natAbs + (u.2 - v.2).natAbs = 2 then (0, 1) else (1, 0)

/-- A heap entry (f_score, counter, node). -/
abbrev Entry := FVal × ℕ × Cell

/-- Lexicographic heap order on (f, counter); counters are pairwise distinct. -/
def entryLt (e1 e2 : Entry) : Bool :=
  match cmpF e1.1 e2.1 with
  | .lt => true
  | .eq => e1.2.1 < e2.2.1
  | .gt => false

/-- heapq.heappop: remove the minimum entry by (f, counter). -/
def popMin : List Entry → Option (Entry × List Entry)
  | [] => none
  | e :: es =>
    match popMin es with
    | none => some (e, [])
    | some (m, rest) => if entryLt m e then some (m, e :: rest) else some (e, es)

/-- The search state of AStarPlanner.plan: open list, push counter, came_from
and g_score maps (f_score is also recorded by the source but never read back;
the value pushed with each heap entry is the one that matters). -/
structure AState where
  openl : List Entry
  counter : ℕ
  cf : Cell → Option Cell
  g : Cell → Option GVal

/-- One neighbor step of the A-star relaxation: if the tentative g improves
(or the neighbor is new), update came_from and g_score and push. -/
def expandOne (grid : GridManager) (goal cur : Cell) (st : AState) (nb : Cell) :
    AState :=
  let gcur := (st.g cur).getD (0, 0)
  let c := stepCost cur nb
  let t : GVal := (gcur.1 + c.1, gcur.2 + c.2)
  let improve :=
    match st.g nb with
    | none => true
    | some gn => gLt t gn
  if improve then
    { openl := st.openl ++ [((t.1, t.2, hRad nb goal), st.counter + 1, nb)]
      counter := st.counter + 1
      cf := fun x => if x = nb then some cur else st.cf x
      g := fun x => if x = nb then some t else st.g x }
  else st

/-- Relax all valid free neighbors of the popped node, in source move order. -/
def expandAll (grid : GridManager) (goal cur : Cell) (st : AState) : AState :=
  (grid.get_neighbors cur.1 cur.2 true).foldl (expandOne grid goal cur) st

/-- The came_from chain walk of AStarPlanner._reconstruct_path (the source
while-loop; the fuel is justified because g strictly decreases along parents,
so a chain never revisits a cell and has at most rows * cols entries). -/
def reconstructAux (cf : Cell → Option Cell) : ℕ → Cell → List Cell
  | 0, cur => [cur]
  | fuel + 1, cur =>
    match cf cur with
    | none => [cur]
    | some p => cur :: reconstructAux cf fuel p

/-- AStarPlanner._reconstruct_path: walk predecessors, reverse, map cells to
their world-center waypoints. -/
def reconstructPath (grid : GridManager) (cf : Cell → Option Cell) (cur : Cell) :
    List Waypoint :=
  ((reconstructAux cf (grid.rows * grid.cols + 1) cur).reverse).map fun rc =>
    centerWp grid rc.1 rc.2

/-- The A-star main loop: pop the minimum entry; if it is the goal, reconstruct,
else relax its neighbors and continue.  The fuel only cuts off runs longer than
the wrapper's generous budget (the source loop runs until the heap empties). -/
def astarLoop (grid : GridManager) (goal : Cell) : ℕ → AState → List Waypoint
  | 0, _ => []
  | fuel + 1, st =>
    match popMin st.openl with
    | none => []
    | some (e, rest) =>
      let cur := e.2.2
      if cur = goal then reconstructPath grid st.cf cur
      else
        astarLoop grid goal fuel
          (expandAll grid goal cur
            { openl := rest, counter := st.counter, cf := st.cf, g := st.g })

/-- AStarPlanner.plan: empty result when start or goal is not free; otherwise
run the search from the initial state (the source pushes the literal f = 0 with
the start node). -/
def AStarPlanner.plan (grid : GridManager) (s goal : Cell) : List Waypoint :=
  if grid.is_free s.1 s.2 && grid.is_free goal.1 goal.2 then
    astarLoop grid goal ((grid.rows * grid.cols + 1) * (grid.rows * grid.cols + 1))
      { openl := [((0, 0, 0), 0, s)]
        counter := 0
        cf := fun _ => none
        g := fun x => if x = s then some (0, 0) else none }
  else []

/-
  Coverage planner (src/backend/app/algorithms/coverage.py).
-/

/-- The ascending list of integers a, a+1, ..., b-1. -/
def intRange (a b : ℤ) : List ℤ :=
  (List.range (b - a).toNat).map fun (i : ℕ) => a + (i : ℤ)

/-- The column scan of CoveragePlanner._find_free_segments, carrying the
current open segment start. -/
def findSegAux (grid : GridManager) (row : ℤ) :
    List ℤ → Option ℤ → List (ℤ × ℤ)
  | [], none => []
  | [], some s => [(s, (grid.cols : ℤ) - 1)]
  | c :: rest, start =>
    if grid.is_free row c then
      match start with
      | none => findSegAux grid row rest (some c)
      | some _ => findSegAux grid row rest start
    else
      match start with
      | some s => (s, c - 1) :: findSegAux grid row rest none
      | none => findSegAux grid row rest none

/-- CoveragePlanner._find_free_segments: maximal runs of consecutive free
columns of a row, as (start, end) pairs. -/
def CoveragePlanner.find_free_segments (grid : GridManager) (row : ℤ) :
    List (ℤ × ℤ) :=
  findSegAux grid row ((List.range grid.cols).map fun c => (c : ℤ)) none

/-- Largest k at most the first argument with k * k ≤ n (structural recursion,
so that the kernel can evaluate it; Nat.sqrt is well-founded and opaque). -/
def isqrtAux : ℕ → ℕ → ℕ
  | 0, _ => 0
  | f + 1, n => if (f + 1) * (f + 1) ≤ n then f + 1 else isqrtAux f n

/-- Integer square root: the floor of the square root of n. -/
def isqrt (n : ℕ) : ℕ := isqrtAux n n

/-- Floor of the square root of a nonnegative rational (0 for negative):
floor (sqrt (a/b)) = floor (sqrt (a*b)) / b. -/
def ratSqrtFloor (q : ℚ) : ℕ :=
  isqrt (q.num.toNat * q.den) / q.den

/-- CoveragePlanner._needs_navigation: sample the straight segment between two
waypoints at max(int(dist/resolution)+1, 2) steps and report whether any sample
falls in a valid occupied cell. -/
def CoveragePlanner.needs_navigation (grid : GridManager) (p1 p2 : Waypoint) :
    Bool :=
  let dx := p2.x - p1.x
  let dy := p2.y - p1.y
  let distSq := dx * dx + dy * dy
  let steps : ℕ :=
    max (ratSqrtFloor (distSq / (grid.resolution * grid.resolution)) + 1) 2
  (List.range (steps + 1)).any fun i =>
    let t : ℚ := (i : ℚ) / (steps : ℚ)
    let x := p1.x + t * (p2.x - p1.x)
    let y := p1.y + t * (p2.y - p1.y)
    let rc := grid.world_to_grid x y
    grid.is_valid rc.1 rc.2 && !(grid.is_free rc.1 rc.2)

/-- The inner column sweep of one free segment in plan_with_obstacles: emit the
center of each not-yet-visited free cell, ascending on even rows, descending on
odd rows, threading the visited set. -/
def sweepSegment (grid : GridManager) (row : ℤ) (seg : ℤ × ℤ)
    (visited : Finset Cell) : List Waypoint × Finset Cell :=
  let cs :=
    if row % 2 = 0 then intRange seg.1 (seg.2 + 1)
    else (intRange seg.1 (seg.2 + 1)).reverse
  cs.foldl
    (fun acc c =>
      if (row, c) ∉ acc.2 ∧ grid.is_free row c = true then
        (acc.1 ++ [centerWp grid row c], insert (row, c) acc.2)
      else acc)
    ([], visited)

/-- One segment step of plan_with_obstacles: sweep the segment, insert the
interior of an A-star connector when the line of sight from the last emitted
waypoint to the segment head is blocked, then append the segment waypoints. -/
def attachSegment (grid : GridManager) (row : ℤ) (acc : List Waypoint × Finset Cell)
    (seg : ℤ × ℤ) : List Waypoint × Finset Cell :=
  let swept := sweepSegment grid row seg acc.2
  let base := acc.1
  let withConn :=
    if base ≠ [] ∧ swept.1 ≠ [] then
      let lastP := base.getLastD ⟨0, 0, 0⟩
      let nextP := swept.1.headD ⟨0, 0, 0⟩
      if CoveragePlanner.needs_navigation grid lastP nextP then
        let sg := grid.world_to_grid lastP.x lastP.y
        let eg := grid.world_to_grid nextP.x nextP.y
        let conn := AStarPlanner.plan grid sg eg
        if 2 < conn.length then base ++ (conn.drop 1).dropLast else base
      else base
    else base
  (withConn ++ swept.1, swept.2)

/-- One row of plan_with_obstacles: compute the free segments, reverse their
order on odd rows, and attach each in turn. -/
def processRow (grid : GridManager) (acc : List Waypoint × Finset Cell) (r : ℕ) :
    List Waypoint × Finset Cell :=
  let segs := CoveragePlanner.find_free_segments grid (r : ℤ)
  let segs := if r % 2 = 1 then segs.reverse else segs
  segs.foldl (attachSegment grid (r : ℤ)) acc

/-- CoveragePlanner.plan_with_obstacles: boustrophedon sweep over all rows with
obstacle splitting and A-star connectors. -/
def CoveragePlanner.plan_with_obstacles (grid : GridManager) : List Waypoint :=
  ((List.range grid.rows).foldl (processRow grid) ([], ∅)).1

/-
  Obstacle rasterization (src/backend/app/algorithms/geometry.py and
  GridManager.add_obstacles).  The shapely geometry library is an external
  collaborator: a shape is modelled by its containment test together with its
  bounding box, which are the only two queries grid_cells_in_shape makes; the
  soundness field records that the bounding box encloses the shape, which is
  true of every shapely geometry.
-/

/-- A 2D shape as used by grid_cells_in_shape: a containment predicate plus its
bounding box (shape.bounds), with the box enclosing the contained points. -/
structure ShapeM where
  contains : ℚ → ℚ → Bool
  minx : ℚ
  miny : ℚ
  maxx : ℚ
  maxy : ℚ
  bounds_sound : ∀ x y, contains x y = true →
    minx ≤ x ∧ x ≤ maxx ∧ miny ≤ y ∧ y ≤ maxy

/-- create_shape for a rectangle obstacle: the axis-aligned box centered at
(cx, cy); shapely `contains` holds on the strict interior only. -/
def ShapeM.rectangle (cx cy w h : ℚ) : ShapeM where
  contains x y :=
    decide (cx - w/2 < x ∧ x < cx + w/2 ∧ cy - h/2 < y ∧ y < cy + h/2)
  minx := cx - w/2
  miny := cy - h/2
  maxx := cx + w/2
  maxy := cy + h/2
  bounds_sound x y hxy := by
    simp only [decide_eq_true_eq] at hxy
    exact ⟨le_of_lt hxy.1, le_of_lt hxy.2.1, le_of_lt hxy.2.2.1,
      le_of_lt hxy.2.2.2⟩

/-- grid_cells_in_shape: scan the bounding box of the shape, clipped to
[0, wall/resolution), and keep the cells whose center the shape contains. -/
def grid_cells_in_shape (shape : ShapeM) (grid_resolution wall_width wall_height : ℚ) :
    List Cell :=
  let minCol := max 0 (ratTrunc (shape.minx / grid_resolution))
  let minRow := max 0 (ratTrunc (shape.miny / grid_resolution))
  let maxCol := min (ratTrunc (wall_width / grid_resolution))
    (ratTrunc (shape.maxx / grid_resolution) + 1)
  let maxRow := min (ratTrunc (wall_height / grid_resolution))
    (ratTrunc (shape.maxy / grid_resolution) + 1)
  (intRange minRow maxRow).flatMap fun (r : ℤ) =>
    (intRange minCol maxCol).filterMap fun (c : ℤ) =>
      if shape.contains (((c : ℚ) + 1/2) * grid_resolution)
        (((r : ℚ) + 1/2) * grid_resolution)
      then some (r, c) else none

/-- GridManager.add_obstacles: mark the cells of each obstacle shape, ignoring
computed indices that fall outside the grid. -/
def GridManager.add_obstacles (g : GridManager) (obstacles : List ShapeM) :
    GridManager :=
  obstacles.foldl
    (fun g sh =>
      (grid_cells_in_shape sh g.resolution g.width g.height).foldl
        (fun g rc =>
          if 0 ≤ rc.1 ∧ rc.1 < (g.rows : ℤ) ∧ 0 ≤ rc.2 ∧ rc.2 < (g.cols : ℤ) then
            { g with occ := fun x => if x = rc then true else g.occ x }
          else g)
        g)
    g

/-
  Genetic optimizer (src/backend/app/algorithms/genetic.py).

  The Python `random` module (an external collaborator) is modelled as an
  oracle `Rng`: each call site passes a strictly increasing call counter, so a
  run of the optimizer under one oracle value corresponds to one stream of
  pseudo-random draws.  The oracle fields carry the documented contracts of
  shuffle / randint / sample / choice (choice may return [] when its argument
  is empty, where Python would raise).

  Fitness mixes path length with arc-cosine smoothness, so it is a real number
  and the evolution loop is noncomputable; all branching on rationals stays
  computable.
-/

/-- Python round() at 3 decimals: round half to even on the scaled value. -/
def roundHalfEven (q : ℚ) : ℤ :=
  let f := ⌊q⌋
  let r := q - (f : ℚ)
  if r < 1/2 then f
  else if 1/2 < r then f + 1
  else if Even f then f else f + 1

/-- round(q, 3) as an exact rational. -/
def round3 (q : ℚ) : ℚ := (roundHalfEven (q * 1000) : ℚ) / 1000

/-- The scan of GeneticOptimizer._deduplicate_waypoints, carrying the set of
rounded coordinates already seen. -/
def dedupAux : List Waypoint → Finset (ℚ × ℚ) → List Waypoint
  | [], _ => []
  | w :: rest, seen =>
    if (round3 w.x, round3 w.y) ∈ seen then dedupAux rest seen
    else w :: dedupAux rest (insert (round3 w.x, round3 w.y) seen)

/-- GeneticOptimizer._deduplicate_waypoints: keep the first waypoint of each
class of equal (x, y) rounded to 1 mm. -/
def GeneticOptimizer.deduplicate_waypoints (ws : List Waypoint) : List Waypoint :=
  dedupAux ws ∅

/-- The pseudo-random oracle: the draw functions of the Python random module,
indexed by a call counter, together with their documented contracts. -/
structure Rng where
  shuf : ℕ → List Waypoint → List Waypoint
  rint : ℕ → ℕ → ℕ → ℕ
  rand : ℕ → ℚ
  samp : ℕ → ℕ → ℕ → List ℕ
  choi : ℕ → List (List Waypoint) → List Waypoint
  shuf_perm : ∀ i l, (shuf i l).Perm l
  rint_le : ∀ i a b, a ≤ b → a ≤ rint i a b ∧ rint i a b ≤ b
  samp_len : ∀ i n k, k ≤ n → (samp i n k).length = k
  samp_nodup : ∀ i n k, k ≤ n → (samp i n k).Nodup
  samp_lt : ∀ i n k, k ≤ n → ∀ x ∈ samp i n k, x < n
  choi_mem : ∀ i l, choi i l ∈ l ∨ choi i l = []

/-- The constructor parameters of GeneticOptimizer. -/
structure GAParams where
  population_size : ℕ
  generations : ℕ
  mutation_rate : ℚ
  crossover_rate : ℚ

/-- The turn angle contributed at interior point q of the triple (p, q, r):
arccos of the clipped dot product of the unit segment vectors, or 0 when either
segment is shorter than 1e-6. -/
noncomputable def angleAt (p q r : Waypoint) : ℝ :=
  let v1x : ℝ := ((q.x - p.x : ℚ) : ℝ)
  let v1y : ℝ := ((q.y - p.y : ℚ) : ℝ)
  let v2x : ℝ := ((r.x - q.x : ℚ) : ℝ)
  let v2y : ℝ := ((r.y - q.y : ℚ) : ℝ)
  let n1 := Real.sqrt (v1x ^ 2 + v1y ^ 2)
  let n2 := Real.sqrt (v2x ^ 2 + v2y ^ 2)
  if 1 / 1000000 < n1 ∧ 1 / 1000000 < n2 then
    Real.arccos (max (-1) (min 1 ((v1x * v2x + v1y * v2y) / (n1 * n2))))
  else 0

/-- GeneticOptimizer._calculate_smoothness: total turn angle along a path. -/
noncomputable def GeneticOptimizer.calculate_smoothness : List Waypoint → ℝ
  | p :: q :: r :: rest => angleAt p q r + calculate_smoothness (q :: r :: rest)
  | _ => 0

/-- GeneticOptimizer._fitness evaluated on the assembled full path: 0 when the
length is 0, else 10000/length + 5000 * clamped smoothness (the source writes
3.14159 for pi). -/
noncomputable def pathFitness (full : List Waypoint) : ℝ :=
  let L := calculate_path_length full
  if L = 0 then 0
  else
    let A := GeneticOptimizer.calculate_smoothness full
    let maxA : ℝ := ((max (full.length - 2) 1 : ℕ) : ℝ) * (314159 / 100000)
    10000 / L + max 0 (1 - A / maxA) * 5000

/-- GeneticOptimizer._fitness: fitness of an individual between the two fixed
anchors. -/
noncomputable def GeneticOptimizer.fitness (ind : List Waypoint) (s e : Waypoint) :
    ℝ :=
  pathFitness (s :: (ind ++ [e]))

open Classical in
/-- np.argmax: index of the first maximal element (0 for the empty list). -/
noncomputable def argmaxIdx : List ℝ → ℕ
  | [] => 0
  | x :: xs =>
    match xs with
    | [] => 0
    | _ => if x < xs.getD (argmaxIdx xs) 0 then argmaxIdx xs + 1 else 0

/-- GeneticOptimizer._initialize_population: population_size shuffled copies of
the optimizable interior, threading the draw counter. -/
def GeneticOptimizer.initialize_population (rng : Rng) (opt : List Waypoint) :
    ℕ → ℕ → List (List Waypoint) × ℕ
  | 0, ctr => ([], ctr)
  | k + 1, ctr =>
    let ind := rng.shuf ctr opt
    let rest := GeneticOptimizer.initialize_population rng opt k (ctr + 1)
    (ind :: rest.1, rest.2)

open Classical in
/-- One tournament of GeneticOptimizer._selection: draw 3 distinct indices,
keep the population member with the highest drawn fitness. -/
noncomputable def tournamentStep (rng : Rng) (population : List (List Waypoint))
    (scores : List ℝ) (acc : List (List Waypoint) × ℕ) :
    List (List Waypoint) × ℕ :=
  let idxs := rng.samp acc.2 population.length 3
  let tf := idxs.map fun i => scores.getD i 0
  let winner := idxs.getD (argmaxIdx tf) 0
  (acc.1 ++ [population.getD winner []], acc.2 + 1)

/-- GeneticOptimizer._selection: population_size / 2 tournaments. -/
noncomputable def GeneticOptimizer.selection (rng : Rng)
    (population : List (List Waypoint)) (scores : List ℝ) (ctr : ℕ) :
    List (List Waypoint) × ℕ :=
  (List.range (population.length / 2)).foldl
    (fun acc _ => tournamentStep rng population scores acc) ([], ctr)

/-- GeneticOptimizer._crossover (ordered crossover).  The source fills an
array: positions [a, b) copy parent1, and the elements of parent2 rotated to
start at b that are not in the copied segment fill positions b, ..., size-1 and
then 0, ..., a-1 in order.  For the permutation parents the optimizer feeds it,
those wrap-filled slots are exactly `rest.drop (size-b)` before the segment and
`rest.take (size-b)` after it; membership is by object identity in the source,
which coincides with value equality because all individuals hold
pairwise-distinct deduplicated waypoints. -/
def GeneticOptimizer.crossover (rng : Rng) (ctr : ℕ) (p1 p2 : List Waypoint) :
    List Waypoint × ℕ :=
  let size := p1.length
  if size ≤ 2 then (p1, ctr)
  else
    let a := rng.rint ctr 0 (size - 2)
    let b := rng.rint (ctr + 1) (a + 1) size
    let seg := (p1.drop a).take (b - a)
    let rest := ((p2.drop b) ++ (p2.take b)).filter fun w => w ∉ seg
    (rest.drop (size - b) ++ seg ++ rest.take (size - b), ctr + 2)

/-- GeneticOptimizer._mutate: swap two distinct sampled positions. -/
def GeneticOptimizer.mutate (rng : Rng) (ctr : ℕ) (ind : List Waypoint) :
    List Waypoint × ℕ :=
  if ind.length ≤ 1 then (ind, ctr)
  else
    let idxs := rng.samp ctr ind.length 2
    let i1 := idxs.getD 0 0
    let i2 := idxs.getD 1 0
    ((ind.set i1 (ind.getD i2 ⟨0, 0, 0⟩)).set i2 (ind.getD i1 ⟨0, 0, 0⟩), ctr + 1)

/-- The child-building while-loop of one generation: pick two parents by
choice, cross them over with probability crossover_rate (else clone parent1),
then mutate with probability mutation_rate. -/
def buildChildren (rng : Rng) (P : GAParams) (selected : List (List Waypoint)) :
    ℕ → ℕ → List (List Waypoint) × ℕ
  | 0, ctr => ([], ctr)
  | k + 1, ctr =>
    let p1 := rng.choi ctr selected
    let r1 := rng.rand (ctr + 2)
    let cross :=
      if r1 < P.crossover_rate then GeneticOptimizer.crossover rng (ctr + 3) p1
        (rng.choi (ctr + 1) selected)
      else (p1, ctr + 3)
    let r2 := rng.rand cross.2
    let mu :=
      if r2 < P.mutation_rate then GeneticOptimizer.mutate rng (cross.2 + 1) cross.1
      else (cross.1, cross.2 + 1)
    let rest := buildChildren rng P selected k mu.2
    (mu.1 :: rest.1, rest.2)

open Classical in
/-- One generation of GeneticOptimizer.optimize: score the population, update
the best individual (float -inf initial best is the `none` state, below every
score), select, and build the next generation behind the elitist slot. -/
noncomputable def gaStep (rng : Rng) (P : GAParams) (s e : Waypoint)
    (pop : List (List Waypoint)) (best : Option (List Waypoint × ℝ)) (ctr : ℕ) :
    List (List Waypoint) × Option (List Waypoint × ℝ) × ℕ :=
  let scores := pop.map fun ind => GeneticOptimizer.fitness ind s e
  let idx := argmaxIdx scores
  let best' :=
    match best with
    | none => some (pop.getD idx [], scores.getD idx 0)
    | some (bi, bf) =>
      if bf < scores.getD idx 0 then some (pop.getD idx [], scores.getD idx 0)
      else some (bi, bf)
  let sel := GeneticOptimizer.selection rng pop scores ctr
  let children := buildChildren rng P sel.1 (P.population_size - 1) sel.2
  ((best'.getD ([], 0)).1 :: children.1, best', children.2)

/-- The generation loop of GeneticOptimizer.optimize. -/
noncomputable def gaLoop (rng : Rng) (P : GAParams) (s e : Waypoint) :
    ℕ → List (List Waypoint) → Option (List Waypoint × ℝ) → ℕ →
    Option (List Waypoint × ℝ)
  | 0, _, best, _ => best
  | gens + 1, pop, best, ctr =>
    let step := gaStep rng P s e pop best ctr
    gaLoop rng P s e gens step.1 step.2.1 step.2.2

/-- GeneticOptimizer.optimize: inputs of length at most 2 are returned as is;
the input is deduplicated, the anchors split off, the interior evolved, and the
best individual reassembled between the anchors and deduplicated again.  (When
the original input is nonempty the source's `waypoints if waypoints else []`
is the deduplicated list itself.) -/
noncomputable def GeneticOptimizer.optimize (rng : Rng) (P : GAParams)
    (waypoints : List Waypoint) : List Waypoint :=
  if waypoints.length ≤ 2 then waypoints
  else
    let ws := GeneticOptimizer.deduplicate_waypoints waypoints
    if ws.length ≤ 2 then ws
    else
      let fixedStart := ws.headD ⟨0, 0, 0⟩
      let fixedEnd := ws.getLastD ⟨0, 0, 0⟩
      let optimizable := (ws.drop 1).dropLast
      if optimizable.length ≤ 1 then ws
      else
        let ip := GeneticOptimizer.initialize_population rng optimizable
          P.population_size 0
        match gaLoop rng P fixedStart fixedEnd P.generations ip.1 none ip.2 with
        | none => ws
        | some (bi, _) =>
          GeneticOptimizer.deduplicate_waypoints (fixedStart :: (bi ++ [fixedEnd]))

/-
  Hybrid planner (src/backend/app/algorithms/hybrid.py).
-/

/-- One step of HybridPlanner._connect_gaps over a consecutive pair of the
original list: when the Euclidean gap exceeds 3 * resolution (squares compared;
equivalent for the nonnegative resolutions of real grids), insert the A-star
path without its first point, or keep the direct jump when A-star fails. -/
def connectStep (grid : GridManager) (acc : List Waypoint) (pr cu : Waypoint) :
    List Waypoint :=
  let dx := cu.x - pr.x
  let dy := cu.y - pr.y
  if 9 * (grid.resolution * grid.resolution) < dx * dx + dy * dy then
    let pg := grid.world_to_grid pr.x pr.y
    let cg := grid.world_to_grid cu.x cu.y
    let ap := AStarPlanner.plan grid pg cg
    if ap ≠ [] then acc ++ ap.drop 1 else acc ++ [cu]
  else acc ++ [cu]

/-- HybridPlanner._connect_gaps. -/
def HybridPlanner.connect_gaps (grid : GridManager) (waypoints : List Waypoint) :
    List Waypoint :=
  if waypoints.length ≤ 1 then waypoints
  else
    (waypoints.zip waypoints.tail).foldl
      (fun acc pq => connectStep grid acc pq.1 pq.2)
      [waypoints.headD ⟨0, 0, 0⟩]

/-- HybridPlanner.plan: coverage sweep, gap stitching, then genetic reordering
when more than 10 waypoints remain. -/
noncomputable def HybridPlanner.plan (rng : Rng) (grid : GridManager)
    (P : GAParams) : List Waypoint :=
  let coverage := CoveragePlanner.plan_with_obstacles grid
  if coverage = [] then []
  else
    let connected := HybridPlanner.connect_gaps grid coverage
    if 10 < connected.length then GeneticOptimizer.optimize rng P connected
    else connected

/-
  Path service (src/backend/app/services/path_service.py).  The database, the
  cache, and wall lookup are external collaborators; the embedded core is the
  grid construction, algorithm dispatch, and metric computation of plan_path.
-/

/-- The four members of AlgorithmType (models/trajectory.py). -/
inductive AlgorithmType where
  | coverage
  | astar
  | genetic
  | hybrid
deriving DecidableEq, Repr

/-- The recognized keys of the parameters dict of plan_path. -/
structure PlanParams where
  start : Option Cell
  goal : Option Cell
  grid_resolution : Option ℚ
  population_size : Option ℕ
  generations : Option ℕ
  mutation_rate : Option ℚ
  crossover_rate : Option ℚ

/-- An absent parameters dict. -/
def PlanParams.none : PlanParams := ⟨Option.none, Option.none, Option.none,
  Option.none, Option.none, Option.none, Option.none⟩

/-- The GA parameters resolved against the settings defaults (config.py:
population 50, generations 30, mutation 0.1, crossover 0.8). -/
def gaParamsOf (p : PlanParams) : GAParams :=
  { population_size := p.population_size.getD 50
    generations := p.generations.getD 30
    mutation_rate := p.mutation_rate.getD (1/10)
    crossover_rate := p.crossover_rate.getD (8/10) }

/-- PathService._execute_algorithm: dispatch on the algorithm kind; in the
astar kind the start and goal default to (0, 0) and (rows-1, cols-1) and the
A-star result is returned directly, empty or not. -/
noncomputable def PathService.execute_algorithm (rng : Rng) (grid : GridManager)
    (alg : AlgorithmType) (p : PlanParams) : List Waypoint :=
  match alg with
  | .coverage => CoveragePlanner.plan_with_obstacles grid
  | .astar =>
    AStarPlanner.plan grid (p.start.getD (0, 0))
      (p.goal.getD ((grid.rows : ℤ) - 1, (grid.cols : ℤ) - 1))
  | .genetic =>
    GeneticOptimizer.optimize rng (gaParamsOf p)
      (CoveragePlanner.plan_with_obstacles grid)
  | .hybrid => HybridPlanner.plan rng grid (gaParamsOf p)

/-- The trajectory record assembled by plan_path (the fields computed by the
core; persistence fields are external). -/
structure Plan where
  waypoints : List Waypoint
  total_distance : ℝ
  estimated_time : ℝ
  coverage_percentage : ℚ

/-- PathService.plan_path after wall loading: build the grid at the requested
resolution (settings default 0.3), add the obstacles, run the algorithm, and
fill the metrics (estimated time = distance / 0.5).  Every algorithm outcome,
including an empty A-star result, produces this normal record: the source has
no failure path between grid construction and the trajectory insert. -/
noncomputable def PathService.plan_path (rng : Rng) (width height : ℚ)
    (obstacles : List ShapeM) (alg : AlgorithmType) (p : PlanParams) : Plan :=
  let res := p.grid_resolution.getD (3/10)
  let grid := (GridManager.new width height res).add_obstacles obstacles
  let wps := PathService.execute_algorithm rng grid alg p
  { waypoints := wps
    total_distance := calculate_path_length wps
    estimated_time := calculate_path_length wps / (1/2 : ℝ)
    coverage_percentage :=
      grid.calculate_coverage ((wps.map fun w => grid.world_to_grid w.x w.y).toFinset) }

-- Concrete grids used as witnesses and counterexamples.

/-- A 2-by-3 grid at resolution 0.1 whose only occupied cell is (0, 1): row 0
splits into segments [0,0] and [2,2], and the A-star connector between them
passes through cell (1, 1) of the not-yet-swept row 1. -/
def gridC6 : GridManager :=
  { rows := 2, cols := 3, width := 3/10, height := 1/5, resolution := 1/10
    occ := fun rc => decide (rc = (0, 1)) }

/-- An obstacle-free 4-by-2 grid at resolution 1. -/
def gridC3 : GridManager :=
  { rows := 4, cols := 2, width := 2, height := 4, resolution := 1
    occ := fun _ => false }

/-- A deterministic pseudo-random oracle used to instantiate theorems that are
universally quantified over the draw stream. -/
def rng0 : Rng where
  shuf _ l := l
  rint _ a _ := a
  rand _ := 1/2
  samp _ _ k := List.range k
  choi _ l := l.headD []
  shuf_perm _ l := List.Perm.refl l
  rint_le _ a b h := ⟨le_refl a, h⟩
  samp_len _ _ k _ := List.length_range k
  samp_nodup _ _ k _ := List.nodup_range k
  samp_lt _ n k hk x hx := lt_of_lt_of_le (List.mem_range.mp hx) hk
  choi_mem i l := by
    cases l with
    | nil => exact Or.inr rfl
    | cons h t => exact Or.inl (by simp [List.headD_cons])

/-- A 1-by-1 grid with its single cell free. -/
def gridOneFree : GridManager :=
  { rows := 1, cols := 1, width := 1/10, height := 1/10, resolution := 1/10
    occ := fun _ => false }

/-- A 1-by-1 grid with its single cell occupied (no free cells). -/
def gridOneOcc : GridManager :=
  { rows := 1, cols := 1, width := 1/10, height := 1/10, resolution := 1/10
    occ := fun _ => true }

theorem gridOneFree_total : gridOneFree.total_free = 1 := by decide

theorem gridOneOcc_total : gridOneOcc.total_free = 0 := by decide

/-- C1 counterexample: the value computed by calculate_coverage is a percentage,
not a fraction in [0, 1]: on a 1-by-1 all-free grid with its cell visited the
result is 100, and on a grid with no free cells the result is 100, not 1. -/
theorem c1_counterexample :
    gridOneFree.calculate_coverage {((0 : ℤ), (0 : ℤ))} = 100 ∧
    ¬ gridOneFree.calculate_coverage {((0 : ℤ), (0 : ℤ))} ≤ 1 ∧
    gridOneOcc.calculate_coverage ∅ = 100 ∧
    ¬ gridOneOcc.calculate_coverage ∅ = 1 := by
  have h1 : gridOneFree.calculate_coverage {((0 : ℤ), (0 : ℤ))} = 100 := by
    unfold GridManager.calculate_coverage
    rw [gridOneFree_total]
    norm_num
  have h2 : gridOneOcc.calculate_coverage ∅ = 100 := by
    unfold GridManager.calculate_coverage
    rw [gridOneOcc_total]
    norm_num
  exact ⟨h1, by rw [h1]; norm_num, h2, by rw [h2]; norm_num⟩

/-- C1 amended: calculate_coverage returns a percentage: 100 when the grid has
no free cells, and otherwise 100 times (number of visited cells) / (number of
free cells); the value lies in [0, 100] whenever at most all free cells are
visited. -/
theorem c1_amended (g : GridManager) (visited : Finset Cell) :
    (g.total_free = 0 → g.calculate_coverage visited = 100) ∧
    (g.total_free ≠ 0 →
      g.calculate_coverage visited * (g.total_free : ℚ) = (visited.card : ℚ) * 100) ∧
    (visited.card ≤ g.total_free → g.total_free ≠ 0 →
      0 ≤ g.calculate_coverage visited ∧ g.calculate_coverage visited ≤ 100) := by
  unfold GridManager.calculate_coverage
  refine ⟨fun h => by rw [if_pos h], fun h => ?_, fun hle h => ?_⟩
  · rw [if_neg h]
    have : (g.total_free : ℚ) ≠ 0 := by exact_mod_cast h
    field_simp
  · rw [if_neg h]
    have hpos : (0 : ℚ) < (g.total_free : ℚ) := by
      exact_mod_cast Nat.pos_of_ne_zero h
    constructor
    · positivity
    · rw [div_mul_eq_mul_div, div_le_iff₀ hpos]
      have : (visited.card : ℚ) ≤ (g.total_free : ℚ) := by exact_mod_cast hle
      nlinarith

/-- C1 amended, witness: concrete evaluations discharging each hypothesis. -/
theorem c1_amended_witness :
    gridOneOcc.calculate_coverage ∅ = 100 ∧
    gridOneFree.calculate_coverage {((0 : ℤ), (0 : ℤ))} * (gridOneFree.total_free : ℚ) =
      (({((0 : ℤ), (0 : ℤ))} : Finset Cell).card : ℚ) * 100 ∧
    (0 ≤ gridOneFree.calculate_coverage {((0 : ℤ), (0 : ℤ))} ∧
      gridOneFree.calculate_coverage {((0 : ℤ), (0 : ℤ))} ≤ 100) :=
  ⟨(c1_amended gridOneOcc ∅).1 (by decide),
   (c1_amended gridOneFree {((0 : ℤ), (0 : ℤ))}).2.1 (by decide),
   (c1_amended gridOneFree {((0 : ℤ), (0 : ℤ))}).2.2 (by decide) (by decide)⟩

/-- C10: for a positive resolution and an in-bounds cell (r, c), world_to_grid
inverts grid_to_world exactly: the cell center maps back to (r, c). -/
theorem c10_roundtrip (g : GridManager) (r c : ℤ) (hres : 0 < g.resolution)
    (hr0 : 0 ≤ r) (hrn : r < (g.rows : ℤ)) (hc0 : 0 ≤ c) (hcn : c < (g.cols : ℤ)) :
    g.world_to_grid (g.grid_to_world r c).1 (g.grid_to_world r c).2 = (r, c) := by
  unfold GridManager.world_to_grid GridManager.grid_to_world ratTrunc
  have hne : g.resolution ≠ 0 := ne_of_gt hres
  have hx : ((c : ℚ) + 1/2) * g.resolution / g.resolution = (c : ℚ) + 1/2 := by
    field_simp
    ring
  have hy : ((r : ℚ) + 1/2) * g.resolution / g.resolution = (r : ℚ) + 1/2 := by
    field_simp
    ring
  simp only [hx, hy]
  have hcpos : (0 : ℚ) ≤ (c : ℚ) + 1/2 := by
    have : (0 : ℚ) ≤ (c : ℚ) := by exact_mod_cast hc0
    linarith
  have hrpos : (0 : ℚ) ≤ (r : ℚ) + 1/2 := by
    have : (0 : ℚ) ≤ (r : ℚ) := by exact_mod_cast hr0
    linarith
  rw [if_pos hrpos, if_pos hcpos]
  have hfc : ⌊(c : ℚ) + 1/2⌋ = c := by
    rw [add_comm, Int.floor_add_int]
    norm_num
  have hfr : ⌊(r : ℚ) + 1/2⌋ = r := by
    rw [add_comm, Int.floor_add_int]
    norm_num
  rw [hfr, hfc]

/-- C10 witness: the roundtrip at a concrete in-bounds cell. -/
theorem c10_roundtrip_witness :
    gridOneFree.world_to_grid (gridOneFree.grid_to_world 0 0).1
      (gridOneFree.grid_to_world 0 0).2 = (0, 0) :=
  c10_roundtrip gridOneFree 0 0 (by decide) (by decide) (by decide) (by decide)
    (by decide)

/-- C6 counterexample: on `gridC6` the returned sequence duplicates the center
of cell (1, 1): it is emitted once inside the A-star connector between the two
segments of row 0 (the connector is not recorded in the visited set) and again
by the sweep of row 1. -/
theorem c6_counterexample :
    ¬ (CoveragePlanner.plan_with_obstacles gridC6).Nodup := by decide

/-- The concrete run behind the C6 counterexample: the connector waypoint
(0.15, 0.15) at index 1 reappears as the sweep waypoint at index 4. -/
theorem c6_counterexample_run :
    CoveragePlanner.plan_with_obstacles gridC6 =
      [⟨1/20, 1/20, 0⟩, ⟨3/20, 3/20, 0⟩, ⟨1/4, 1/20, 0⟩,
       ⟨1/4, 3/20, 0⟩, ⟨3/20, 3/20, 0⟩, ⟨1/20, 3/20, 0⟩] := by decide

/-- C3 counterexample: on the obstacle-free grid `gridC3` with start (0, 0) and
goal (3, 1), the A-star path length is 2 + sqrt 2 (the octile distance), while
the claimed formula chebyshev * sqrt 2 + (manhattan - 2 * chebyshev) evaluates
to 3 * sqrt 2 - 2; they differ by far more than the 1e-9 tolerance. -/
theorem c3_counterexample :
    calculate_path_length (AStarPlanner.plan gridC3 (0, 0) (3, 1)) =
      2 + Real.sqrt 2 ∧
    |(2 + Real.sqrt 2) - (3 * Real.sqrt 2 + ((4 : ℝ) - 2 * 3))| >
      1 / 1000000000 := by
  have hplan : AStarPlanner.plan gridC3 (0, 0) (3, 1) =
      [⟨1/2, 1/2, 0⟩, ⟨1/2, 3/2, 0⟩, ⟨1/2, 5/2, 0⟩, ⟨3/2, 7/2, 0⟩] := by decide
  have hsqrt2 : Real.sqrt 2 < 3/2 := by
    nlinarith [Real.sq_sqrt (by norm_num : (2:ℝ) ≥ 0), Real.sqrt_nonneg 2]
  constructor
  · rw [hplan]
    simp only [calculate_path_length, distR]
    push_cast
    norm_num
    ring
  · have : (2 + Real.sqrt 2) - (3 * Real.sqrt 2 + ((4 : ℝ) - 2 * 3)) =
        4 - 2 * Real.sqrt 2 := by ring
    rw [this, abs_of_pos (by linarith)]
    linarith

/-- C4 counterexample: a 1-by-2 surface whose rectangle obstacle occupies the
default A-star start cell (0, 0); AStarPlanner.plan returns the empty sequence
and plan_path still produces a normal plan record with an empty waypoint list
and zero distance (no PlanningFailed error exists anywhere in the service). -/
theorem c4_counterexample :
    AStarPlanner.plan
        ((GridManager.new 2 1 1).add_obstacles [ShapeM.rectangle (1/2) (1/2) 1 1])
        (0, 0) (0, 1) = [] ∧
    (PathService.plan_path rng0 2 1 [ShapeM.rectangle (1/2) (1/2) 1 1] .astar
        { PlanParams.none with grid_resolution := some 1 }).waypoints = [] ∧
    (PathService.plan_path rng0 2 1 [ShapeM.rectangle (1/2) (1/2) 1 1] .astar
        { PlanParams.none with grid_resolution := some 1 }).total_distance = 0 := by
  refine ⟨by decide, ?_, ?_⟩ <;> rfl

/-- C4 amended: when the algorithm kind is AStar and the A-star search returns
the empty sequence, plan_path does not report any error: it returns a normal
plan record with an empty waypoint list, zero total distance and zero
estimated time (no PlanningFailed error exists in the service). -/
theorem c4_amended (rng : Rng) (width height : ℚ) (obstacles : List ShapeM)
    (p : PlanParams)
    (hempty : AStarPlanner.plan
      ((GridManager.new width height (p.grid_resolution.getD (3/10))).add_obstacles
        obstacles)
      (p.start.getD (0, 0))
      (p.goal.getD
        ((((GridManager.new width height
              (p.grid_resolution.getD (3/10))).add_obstacles obstacles).rows : ℤ) - 1,
          (((GridManager.new width height
              (p.grid_resolution.getD (3/10))).add_obstacles obstacles).cols : ℤ) - 1)) =
      []) :
    (PathService.plan_path rng width height obstacles .astar p).waypoints = [] ∧
    (PathService.plan_path rng width height obstacles .astar p).total_distance = 0 ∧
    (PathService.plan_path rng width height obstacles .astar p).estimated_time = 0 := by
  have hw : (PathService.plan_path rng width height obstacles .astar p).waypoints
      = [] := by
    simp only [PathService.plan_path, PathService.execute_algorithm]
    exact hempty
  refine ⟨hw, ?_, ?_⟩
  · show calculate_path_length
      (PathService.plan_path rng width height obstacles .astar p).waypoints = 0
    rw [hw]
    simp [calculate_path_length]
  · show calculate_path_length
      (PathService.plan_path rng width height obstacles .astar p).waypoints /
        (1/2 : ℝ) = 0
    rw [hw]
    simp [calculate_path_length]

/-- C4 amended, witness: the concrete blocked-start instance. -/
theorem c4_amended_witness :
    (PathService.plan_path rng0 2 1 [ShapeM.rectangle (1/2) (1/2) 1 1] .astar
        { PlanParams.none with grid_resolution := some 1 }).waypoints = [] ∧
    (PathService.plan_path rng0 2 1 [ShapeM.rectangle (1/2) (1/2) 1 1] .astar
        { PlanParams.none with grid_resolution := some 1 }).total_distance = 0 ∧
    (PathService.plan_path rng0 2 1 [ShapeM.rectangle (1/2) (1/2) 1 1] .astar
        { PlanParams.none with grid_resolution := some 1 }).estimated_time = 0 :=
  c4_amended rng0 2 1 [ShapeM.rectangle (1/2) (1/2) 1 1]
    { PlanParams.none with grid_resolution := some 1 } (by decide)

/-- The waypoint/visited accumulator step of the segment sweep, evaluated over
any column list: the emitted waypoints are the centers of the not-yet-visited
free columns in scan order, and exactly their cells join the visited set. -/
theorem sweepFold (g : GridManager) (row : ℤ) :
    ∀ (cs : List ℤ) (ws : List Waypoint) (vis : Finset Cell), cs.Nodup →
    (cs.foldl
      (fun acc c =>
        if (row, c) ∉ acc.2 ∧ g.is_free row c = true then
          (acc.1 ++ [centerWp g row c], insert (row, c) acc.2)
        else acc)
      (ws, vis)) =
    (ws ++ ((cs.filter fun c => decide ((row, c) ∉ vis) && g.is_free row c).map
        (centerWp g row)),
     vis ∪ ((cs.filter fun c => decide ((row, c) ∉ vis) && g.is_free row c).map
        (fun c => ((row, c) : Cell))).toFinset) := by
  intro cs
  induction cs with
  | nil => intro ws vis _; simp
  | cons c rest ih =>
    intro ws vis hnd
    have hnd2 := List.nodup_cons.mp hnd
    rw [List.foldl_cons]
    by_cases hcond : (row, c) ∉ vis ∧ g.is_free row c = true
    · rw [if_pos hcond, ih _ _ hnd2.2]
      have hfil : (rest.filter fun c2 =>
          decide ((row, c2) ∉ insert ((row, c) : Cell) vis) && g.is_free row c2) =
          rest.filter fun c2 => decide ((row, c2) ∉ vis) && g.is_free row c2 := by
        apply List.filter_congr
        intro c2 hc2
        have hne : c2 ≠ c := fun h => hnd2.1 (h ▸ hc2)
        simp [Finset.mem_insert, Prod.ext_iff, hne]
      have hdec : (decide ((row, c) ∉ vis) && g.is_free row c) = true := by
        simp [hcond.1, hcond.2]
      rw [hfil]
      simp only [List.filter_cons, hdec, if_pos, List.map_cons, List.toFinset_cons]
      refine Prod.ext ?_ ?_
      · simp
      · show insert ((row, c) : Cell) vis ∪ _ = vis ∪ insert ((row, c) : Cell) _
        rw [Finset.insert_union, Finset.union_insert]
    · rw [if_neg hcond, ih _ _ hnd2.2]
      have hdec : (decide ((row, c) ∉ vis) && g.is_free row c) = false := by
        have hne : ¬ ((decide ((row, c) ∉ vis) && g.is_free row c) = true) := by
          intro h
          rw [Bool.and_eq_true, decide_eq_true_eq] at h
          exact hcond h
        exact Bool.eq_false_iff.mpr hne
      simp only [List.filter_cons, hdec]
      rfl

/-- intRange is duplicate-free. -/
theorem intRange_nodup (a b : ℤ) : (intRange a b).Nodup := by
  have hinj : Function.Injective (fun i : ℕ => a + (i : ℤ)) := by
    intro i j h
    have h2 : a + (i : ℤ) = a + (j : ℤ) := h
    omega
  exact List.Nodup.map hinj (List.nodup_range _)

/-- C8: on even rows a segment emits the centers of its not-yet-visited free
cells in ascending column order, on odd rows in descending order; in
particular, on the obstacle-free 0.3 x 0.2 surface at resolution 0.1 the
planner returns exactly the six waypoints (0.05,0.05), (0.15,0.05),
(0.25,0.05), (0.25,0.15), (0.15,0.15), (0.05,0.15). -/
theorem c8_emission :
    (∀ (g : GridManager) (row s e : ℤ) (vis : Finset Cell),
      (row % 2 = 0 →
        (sweepSegment g row (s, e) vis).1 =
          ((intRange s (e + 1)).filter fun c =>
              decide ((row, c) ∉ vis) && g.is_free row c).map (centerWp g row)) ∧
      (¬ row % 2 = 0 →
        (sweepSegment g row (s, e) vis).1 =
          (((intRange s (e + 1)).reverse).filter fun c =>
              decide ((row, c) ∉ vis) && g.is_free row c).map (centerWp g row))) ∧
    CoveragePlanner.plan_with_obstacles (GridManager.new (3/10) (1/5) (1/10)) =
      [⟨1/20, 1/20, 0⟩, ⟨3/20, 1/20, 0⟩, ⟨1/4, 1/20, 0⟩,
       ⟨1/4, 3/20, 0⟩, ⟨3/20, 3/20, 0⟩, ⟨1/20, 3/20, 0⟩] := by
  constructor
  · intro g row s e vis
    constructor
    · intro hpar
      unfold sweepSegment
      rw [if_pos hpar, sweepFold g row _ [] vis (intRange_nodup _ _)]
      simp
    · intro hpar
      unfold sweepSegment
      rw [if_neg hpar,
        sweepFold g row _ [] vis ((List.nodup_reverse).mpr (intRange_nodup _ _))]
      simp
  · decide

/-- C8 witness: the general emission clauses evaluated on a concrete segment of
`gridC6` (row 0 even ascending, row 1 odd descending). -/
theorem c8_emission_witness :
    (sweepSegment gridC6 0 (0, 2) ∅).1 =
      ((intRange 0 3).filter fun c =>
          decide (((0 : ℤ), c) ∉ (∅ : Finset Cell)) && gridC6.is_free 0 c).map
        (centerWp gridC6 0) ∧
    (sweepSegment gridC6 1 (0, 2) ∅).1 =
      (((intRange 0 3).reverse).filter fun c =>
          decide (((1 : ℤ), c) ∉ (∅ : Finset Cell)) && gridC6.is_free 1 c).map
        (centerWp gridC6 1) :=
  ⟨((c8_emission.1 gridC6 0 0 2 ∅).1 (by decide)),
   ((c8_emission.1 gridC6 1 0 2 ∅).2 (by decide))⟩

/-- A grid with no obstacles: every in-bounds cell is free. -/
def AllFree (g : GridManager) : Prop :=
  ∀ r c : ℤ, g.is_valid r c = true → g.occ (r, c) = false

/-- On an obstacle-free grid is_free coincides with is_valid. -/
theorem is_free_eq_valid (g : GridManager) (h : AllFree g) (r c : ℤ) :
    g.is_free r c = g.is_valid r c := by
  unfold GridManager.is_free
  cases hv : g.is_valid r c
  · simp
  · simp [h r c hv]

/-- On an obstacle-free grid the line-of-sight check never fires. -/
theorem needs_navigation_allfree (g : GridManager) (h : AllFree g)
    (p1 p2 : Waypoint) : CoveragePlanner.needs_navigation g p1 p2 = false := by
  unfold CoveragePlanner.needs_navigation
  rw [List.any_eq_false]
  intro i _
  simp only []
  rw [is_free_eq_valid g h]
  simp [Bool.and_not_self]

/-- The two parity branches of sweepSegment, uniformly: some duplicate-free
column list whose visited-free filter is emitted and recorded. -/
theorem sweepSegment_spec (g : GridManager) (row : ℤ) (seg : ℤ × ℤ)
    (vis : Finset Cell) :
    ∃ cs : List ℤ, cs.Nodup ∧
      (sweepSegment g row seg vis).1 =
        ((cs.filter fun c => decide ((row, c) ∉ vis) && g.is_free row c).map
          (centerWp g row)) ∧
      (sweepSegment g row seg vis).2 =
        vis ∪ ((cs.filter fun c => decide ((row, c) ∉ vis) && g.is_free row c).map
          (fun c => ((row, c) : Cell))).toFinset := by
  unfold sweepSegment
  by_cases h : row % 2 = 0
  · refine ⟨intRange seg.1 (seg.2 + 1), intRange_nodup _ _, ?_, ?_⟩ <;>
      rw [if_pos h, sweepFold g row _ [] vis (intRange_nodup _ _)] <;> simp
  · refine ⟨(intRange seg.1 (seg.2 + 1)).reverse,
      (List.nodup_reverse).mpr (intRange_nodup _ _), ?_, ?_⟩ <;>
      rw [if_neg h,
        sweepFold g row _ [] vis ((List.nodup_reverse).mpr (intRange_nodup _ _))] <;>
      simp

/-- On an obstacle-free grid a segment step is pure: no connector is inserted;
the sweep output is appended and the visited set extended. -/
theorem attachSegment_allfree (g : GridManager) (h : AllFree g) (row : ℤ)
    (acc : List Waypoint × Finset Cell) (seg : ℤ × ℤ) :
    attachSegment g row acc seg =
      (acc.1 ++ (sweepSegment g row seg acc.2).1, (sweepSegment g row seg acc.2).2) := by
  unfold attachSegment
  simp only [needs_navigation_allfree g h, Bool.false_eq_true, if_false, ite_self]

/-- Cell centers are pairwise distinct when the resolution is nonzero. -/
theorem centerWp_inj (g : GridManager) (hres : g.resolution ≠ 0) :
    Function.Injective fun rc : Cell => centerWp g rc.1 rc.2 := by
  intro x y h
  simp only [centerWp, GridManager.grid_to_world, Waypoint.mk.injEq] at h
  have hx : (x.2 : ℚ) = (y.2 : ℚ) := by
    have := mul_right_cancel₀ hres h.1
    linarith
  have hy : (x.1 : ℚ) = (y.1 : ℚ) := by
    have := mul_right_cancel₀ hres h.2.1
    linarith
  have : x.1 = y.1 := by exact_mod_cast hy
  have : x.2 = y.2 := by exact_mod_cast hx
  exact Prod.ext (by assumption) (by assumption)

/-- The accumulator invariant of the obstacle-free sweep: the emitted waypoints
are the centers of a duplicate-free list of cells, all recorded as visited. -/
def SweepInv (g : GridManager) (acc : List Waypoint × Finset Cell) : Prop :=
  ∃ cells : List Cell, acc.1 = cells.map (fun rc => centerWp g rc.1 rc.2) ∧
    cells.Nodup ∧ ∀ x ∈ cells, x ∈ acc.2

/-- attachSegment preserves the sweep invariant on obstacle-free grids. -/
theorem attachSegment_inv (g : GridManager) (h : AllFree g) (row : ℤ)
    (acc : List Waypoint × Finset Cell) (seg : ℤ × ℤ) (hinv : SweepInv g acc) :
    SweepInv g (attachSegment g row acc seg) := by
  obtain ⟨cells, hws, hnd, hsub⟩ := hinv
  obtain ⟨cs, hcsnd, h1, h2⟩ := sweepSegment_spec g row seg acc.2
  rw [attachSegment_allfree g h row acc seg]
  refine ⟨cells ++ ((cs.filter fun c =>
    decide ((row, c) ∉ acc.2) && g.is_free row c).map fun c => ((row, c) : Cell)),
    ?_, ?_, ?_⟩
  · rw [List.map_append, List.map_map, hws, h1]
    rfl
  · rw [List.nodup_append]
    refine ⟨hnd, ?_, ?_⟩
    · refine List.Nodup.map ?_ (List.Nodup.filter _ hcsnd)
      intro c1 c2 hc
      exact congrArg Prod.snd hc
    · intro x hx hx2
      obtain ⟨c, hc, hrc⟩ := List.mem_map.mp hx2
      have hcf := List.of_mem_filter hc
      rw [Bool.and_eq_true, decide_eq_true_eq] at hcf
      exact hcf.1 (by rw [hrc]; exact hsub x hx)
  · intro x hx
    rw [h2]
    rcases List.mem_append.mp hx with hx | hx
    · exact Finset.mem_union_left _ (hsub _ hx)
    · exact Finset.mem_union_right _ (List.mem_toFinset.mpr hx)

/-- processRow preserves the sweep invariant on obstacle-free grids. -/
theorem processRow_inv (g : GridManager) (h : AllFree g) (r : ℕ)
    (acc : List Waypoint × Finset Cell) (hinv : SweepInv g acc) :
    SweepInv g (processRow g acc r) := by
  have hgen : ∀ (segs : List (ℤ × ℤ)) (acc2 : List Waypoint × Finset Cell),
      SweepInv g acc2 → SweepInv g (segs.foldl (attachSegment g (r : ℤ)) acc2) := by
    intro segs
    induction segs with
    | nil => intro acc2 hacc; exact hacc
    | cons sg rest ih =>
      intro acc2 hacc
      rw [List.foldl_cons]
      exact ih _ (attachSegment_inv g h _ acc2 sg hacc)
  exact hgen _ acc hinv

/-- C6 amended: on a grid whose in-bounds cells are all free (so no A-star
connector is ever inserted) plan_with_obstacles returns pairwise-distinct
waypoints; the visited set makes each cell center appear at most once. -/
theorem c6_amended (g : GridManager) (hfree : AllFree g)
    (hres : g.resolution ≠ 0) :
    (CoveragePlanner.plan_with_obstacles g).Nodup := by
  unfold CoveragePlanner.plan_with_obstacles
  have hfold : ∀ (rows : List ℕ) (acc : List Waypoint × Finset Cell),
      SweepInv g acc → SweepInv g (rows.foldl (processRow g) acc) := by
    intro rows
    induction rows with
    | nil => intro acc hacc; exact hacc
    | cons r rest ih =>
      intro acc hacc
      rw [List.foldl_cons]
      exact ih _ (processRow_inv g hfree r acc hacc)
  have hinv := hfold (List.range g.rows) ([], ∅) ⟨[], rfl, List.nodup_nil, by simp⟩
  obtain ⟨cells, hws, hnd, _⟩ := hinv
  rw [hws]
  exact List.Nodup.map (centerWp_inj g hres) hnd

/-- C6 amended, witness: the obstacle-free 2-by-3 surface grid. -/
theorem c6_amended_witness :
    (CoveragePlanner.plan_with_obstacles (GridManager.new (3/10) (1/5) (1/10))).Nodup :=
  c6_amended (GridManager.new (3/10) (1/5) (1/10)) (fun _ _ _ => rfl)
    (by norm_num [GridManager.new])

/-- Membership in intRange is the half-open interval. -/
theorem mem_intRange {a b x : ℤ} : x ∈ intRange a b ↔ a ≤ x ∧ x < b := by
  unfold intRange
  simp only [List.mem_map, List.mem_range]
  constructor
  · rintro ⟨i, hi, rfl⟩
    omega
  · intro ⟨h1, h2⟩
    exact ⟨(x - a).toNat, by omega, by omega⟩

/-- Membership in grid_cells_in_shape: the clipped bounding-box scan keeps
exactly the in-range cells whose center the shape contains. -/
theorem mem_grid_cells_in_shape {sh : ShapeM} {res w h : ℚ} {r c : ℤ} :
    (r, c) ∈ grid_cells_in_shape sh res w h ↔
      (max 0 (ratTrunc (sh.miny / res)) ≤ r ∧
        r < min (ratTrunc (h / res)) (ratTrunc (sh.maxy / res) + 1)) ∧
      (max 0 (ratTrunc (sh.minx / res)) ≤ c ∧
        c < min (ratTrunc (w / res)) (ratTrunc (sh.maxx / res) + 1)) ∧
      sh.contains (((c : ℚ) + 1/2) * res) (((r : ℚ) + 1/2) * res) = true := by
  unfold grid_cells_in_shape
  simp only [List.mem_flatMap, List.mem_filterMap]
  constructor
  · rintro ⟨r2, hr2, c2, hc2, hsome⟩
    by_cases hcont : sh.contains (((c2 : ℚ) + 1/2) * res) (((r2 : ℚ) + 1/2) * res) = true
    · rw [if_pos hcont] at hsome
      obtain ⟨rfl, rfl⟩ : r2 = r ∧ c2 = c := by
        cases hsome
        exact ⟨rfl, rfl⟩
      exact ⟨mem_intRange.mp hr2, mem_intRange.mp hc2, hcont⟩
    · rw [if_neg hcont] at hsome
      cases hsome
  · rintro ⟨hr, hc, hcont⟩
    exact ⟨r, mem_intRange.mpr hr, c, mem_intRange.mpr hc, by rw [if_pos hcont]⟩


/-- The inner marking fold of add_obstacles: the static fields are unchanged,
and a cell is occupied afterwards iff it was before or it is an in-bounds
member of the marked list. -/
theorem markFold_spec (L : List Cell) :
    ∀ (g : GridManager),
      (L.foldl
        (fun g rc =>
          if 0 ≤ rc.1 ∧ rc.1 < (g.rows : ℤ) ∧ 0 ≤ rc.2 ∧ rc.2 < (g.cols : ℤ) then
            { g with occ := fun x => if x = rc then true else g.occ x }
          else g)
        g).rows = g.rows ∧
      (L.foldl
        (fun g rc =>
          if 0 ≤ rc.1 ∧ rc.1 < (g.rows : ℤ) ∧ 0 ≤ rc.2 ∧ rc.2 < (g.cols : ℤ) then
            { g with occ := fun x => if x = rc then true else g.occ x }
          else g)
        g).cols = g.cols ∧
      (L.foldl
        (fun g rc =>
          if 0 ≤ rc.1 ∧ rc.1 < (g.rows : ℤ) ∧ 0 ≤ rc.2 ∧ rc.2 < (g.cols : ℤ) then
            { g with occ := fun x => if x = rc then true else g.occ x }
          else g)
        g).width = g.width ∧
      (L.foldl
        (fun g rc =>
          if 0 ≤ rc.1 ∧ rc.1 < (g.rows : ℤ) ∧ 0 ≤ rc.2 ∧ rc.2 < (g.cols : ℤ) then
            { g with occ := fun x => if x = rc then true else g.occ x }
          else g)
        g).height = g.height ∧
      (L.foldl
        (fun g rc =>
          if 0 ≤ rc.1 ∧ rc.1 < (g.rows : ℤ) ∧ 0 ≤ rc.2 ∧ rc.2 < (g.cols : ℤ) then
            { g with occ := fun x => if x = rc then true else g.occ x }
          else g)
        g).resolution = g.resolution ∧
      ∀ x : Cell,
        ((L.foldl
          (fun g rc =>
            if 0 ≤ rc.1 ∧ rc.1 < (g.rows : ℤ) ∧ 0 ≤ rc.2 ∧ rc.2 < (g.cols : ℤ) then
              { g with occ := fun x => if x = rc then true else g.occ x }
            else g)
          g).occ x = true ↔
          g.occ x = true ∨
            (x ∈ L ∧ 0 ≤ x.1 ∧ x.1 < (g.rows : ℤ) ∧ 0 ≤ x.2 ∧ x.2 < (g.cols : ℤ))) := by
  induction L with
  | nil =>
    intro g
    refine ⟨rfl, rfl, rfl, rfl, rfl, fun x => ?_⟩
    simp
  | cons rc rest ih =>
    intro g
    rw [List.foldl_cons]
    by_cases hin : 0 ≤ rc.1 ∧ rc.1 < (g.rows : ℤ) ∧ 0 ≤ rc.2 ∧ rc.2 < (g.cols : ℤ)
    · rw [if_pos hin]
      obtain ⟨h1, h2, h3, h4, h5, h6⟩ :=
        ih { g with occ := fun x => if x = rc then true else g.occ x }
      refine ⟨h1, h2, h3, h4, h5, fun x => ?_⟩
      rw [h6 x]
      simp only [List.mem_cons]
      constructor
      · rintro (hx | hx)
        · by_cases hxr : x = rc
          · subst hxr
            exact Or.inr ⟨Or.inl rfl, hin⟩
          · rw [if_neg hxr] at hx
            exact Or.inl hx
        · exact Or.inr ⟨Or.inr hx.1, hx.2⟩
      · rintro (hx | ⟨hra | hrb, hb⟩)
        · left
          by_cases hxr : x = rc
          · rw [if_pos hxr]
          · rw [if_neg hxr]; exact hx
        · left
          rw [if_pos hra]
        · exact Or.inr ⟨hrb, hb⟩
    · rw [if_neg hin]
      obtain ⟨h1, h2, h3, h4, h5, h6⟩ := ih g
      refine ⟨h1, h2, h3, h4, h5, fun x => ?_⟩
      rw [h6 x]
      simp only [List.mem_cons]
      constructor
      · rintro (hx | hx)
        · exact Or.inl hx
        · exact Or.inr ⟨Or.inr hx.1, hx.2⟩
      · rintro (hx | ⟨hra | hrb, hb⟩)
        · exact Or.inl hx
        · exact absurd (hra ▸ hb) hin
        · exact Or.inr ⟨hrb, hb⟩

/-- add_obstacles: the static fields are unchanged, and a cell is occupied
afterwards iff some obstacle shape yields it in bounds. -/
theorem add_obstacles_spec (obs : List ShapeM) :
    ∀ (g : GridManager),
      (g.add_obstacles obs).rows = g.rows ∧
      (g.add_obstacles obs).cols = g.cols ∧
      (g.add_obstacles obs).width = g.width ∧
      (g.add_obstacles obs).height = g.height ∧
      (g.add_obstacles obs).resolution = g.resolution ∧
      ∀ x : Cell,
        ((g.add_obstacles obs).occ x = true ↔
          g.occ x = true ∨
            ∃ sh ∈ obs, x ∈ grid_cells_in_shape sh g.resolution g.width g.height ∧
              0 ≤ x.1 ∧ x.1 < (g.rows : ℤ) ∧ 0 ≤ x.2 ∧ x.2 < (g.cols : ℤ)) := by
  induction obs with
  | nil =>
    intro g
    refine ⟨rfl, rfl, rfl, rfl, rfl, fun x => ?_⟩
    simp [GridManager.add_obstacles]
  | cons sh rest ih =>
    intro g
    have hstep := markFold_spec (grid_cells_in_shape sh g.resolution g.width g.height) g
    obtain ⟨m1, m2, m3, m4, m5, m6⟩ := hstep
    have hrest := ih ((grid_cells_in_shape sh g.resolution g.width g.height).foldl
      (fun g rc =>
        if 0 ≤ rc.1 ∧ rc.1 < (g.rows : ℤ) ∧ 0 ≤ rc.2 ∧ rc.2 < (g.cols : ℤ) then
          { g with occ := fun x => if x = rc then true else g.occ x }
        else g)
      g)
    obtain ⟨r1, r2, r3, r4, r5, r6⟩ := hrest
    have hunfold : g.add_obstacles (sh :: rest) =
        (((grid_cells_in_shape sh g.resolution g.width g.height).foldl
          (fun g rc =>
            if 0 ≤ rc.1 ∧ rc.1 < (g.rows : ℤ) ∧ 0 ≤ rc.2 ∧ rc.2 < (g.cols : ℤ) then
              { g with occ := fun x => if x = rc then true else g.occ x }
            else g)
          g).add_obstacles rest) := rfl
    rw [hunfold]
    rw [r1, r2, r3, r4, r5]
    refine ⟨m1, m2, m3, m4, m5, fun x => ?_⟩
    rw [r6 x, m6 x]
    rw [m1, m2, m3, m4, m5]
    simp only [List.mem_cons]
    constructor
    · rintro ((hx | hx) | ⟨sh2, hsh2, hmem⟩)
      · exact Or.inl hx
      · exact Or.inr ⟨sh, Or.inl rfl, hx⟩
      · exact Or.inr ⟨sh2, Or.inr hsh2, hmem⟩
    · rintro (hx | ⟨sh2, (rfl | hsh2), hmem⟩)
      · exact Or.inl (Or.inl hx)
      · exact Or.inl (Or.inr hmem)
      · exact Or.inr ⟨sh2, hsh2, hmem⟩

/-- Truncation bound: if q is at most c + 1/2 with c a nonnegative integer,
the truncation of q is at most c. -/
theorem ratTrunc_le_of_le_half (q : ℚ) (c : ℤ) (hc : 0 ≤ c)
    (h : q ≤ (c : ℚ) + 1/2) : ratTrunc q ≤ c := by
  unfold ratTrunc
  split_ifs with h0
  · rw [Int.floor_le_iff]
    push_cast
    linarith
  · rw [Int.ceil_le]
    push_cast
    push_neg at h0
    have : (0 : ℚ) ≤ (c : ℚ) := by exact_mod_cast hc
    linarith

/-- Truncation bound: if c + 1/2 is at most q with c a nonnegative integer,
then c is at most the truncation of q. -/
theorem le_ratTrunc_of_half_le (q : ℚ) (c : ℤ) (hc : 0 ≤ c)
    (h : (c : ℚ) + 1/2 ≤ q) : c ≤ ratTrunc q := by
  have hcq : (0 : ℚ) ≤ (c : ℚ) := by exact_mod_cast hc
  have h0 : 0 ≤ q := by linarith
  unfold ratTrunc
  rw [if_pos h0, Int.le_floor]
  linarith

/-- C7 amended: after add_obstacles, an in-bounds cell (r, c) is occupied iff
its world center lies inside some obstacle shape AND the cell falls inside the
clipped scan range: c < int(width/resolution) and r < int(height/resolution).
Because the grid has ceil(width/resolution) columns, a final partial column (or
row) is never marked even when an obstacle covers its center. -/
theorem c7_amended (width height res : ℚ) (obs : List ShapeM) (r c : ℤ)
    (hres : 0 < res) (hr0 : 0 ≤ r)
    (hr1 : r < ((GridManager.new width height res).rows : ℤ)) (hc0 : 0 ≤ c)
    (hc1 : c < ((GridManager.new width height res).cols : ℤ)) :
    (((GridManager.new width height res).add_obstacles obs).occ (r, c) = true ↔
      (∃ sh ∈ obs,
        sh.contains (((c : ℚ) + 1/2) * res) (((r : ℚ) + 1/2) * res) = true) ∧
      c < ratTrunc (width / res) ∧ r < ratTrunc (height / res)) := by
  obtain ⟨e1, e2, e3, e4, e5, e6⟩ := add_obstacles_spec obs (GridManager.new width height res)
  rw [e6 (r, c)]
  have hocc0 : (GridManager.new width height res).occ (r, c) = false := rfl
  rw [hocc0]
  have hres3 : (GridManager.new width height res).resolution = res := rfl
  have hres4 : (GridManager.new width height res).width = width := rfl
  have hres5 : (GridManager.new width height res).height = height := rfl
  rw [hres3, hres4, hres5]
  constructor
  · rintro (hocc | ⟨sh, hsh, hmem, hb⟩)
    · cases hocc
    · obtain ⟨hrr, hcc, hcont⟩ := mem_grid_cells_in_shape.mp hmem
      exact ⟨⟨sh, hsh, hcont⟩, lt_of_lt_of_le hcc.2 (min_le_left _ _),
        lt_of_lt_of_le hrr.2 (min_le_left _ _)⟩
  · rintro ⟨⟨sh, hsh, hcont⟩, hcw, hrh⟩
    right
    have hb := sh.bounds_sound _ _ hcont
    have hdivx1 : sh.minx / res ≤ (c : ℚ) + 1/2 := by
      rw [div_le_iff₀ hres]
      exact hb.1
    have hdivx2 : (c : ℚ) + 1/2 ≤ sh.maxx / res := by
      rw [le_div_iff₀ hres]
      exact hb.2.1
    have hdivy1 : sh.miny / res ≤ (r : ℚ) + 1/2 := by
      rw [div_le_iff₀ hres]
      exact hb.2.2.1
    have hdivy2 : (r : ℚ) + 1/2 ≤ sh.maxy / res := by
      rw [le_div_iff₀ hres]
      exact hb.2.2.2
    refine ⟨sh, hsh, mem_grid_cells_in_shape.mpr ⟨⟨?_, ?_⟩, ⟨?_, ?_⟩, hcont⟩,
      hr0, hr1, hc0, hc1⟩
    · exact max_le hr0 (ratTrunc_le_of_le_half _ r hr0 hdivy1)
    · exact lt_min hrh (by have := le_ratTrunc_of_half_le _ r hr0 hdivy2; omega)
    · exact max_le hc0 (ratTrunc_le_of_le_half _ c hc0 hdivx1)
    · exact lt_min hcw (by have := le_ratTrunc_of_half_le _ c hc0 hdivx2; omega)

/-- C7 counterexample: surface 0.25 x 0.1 at resolution 0.1 has 1 x 3 grid
cells; the rectangle centered at (0.25, 0.05) contains the center (0.25, 0.05)
of the in-bounds cell (0, 2), yet after add_obstacles the cell is still free,
because the column scan is clipped at int(width/resolution) = 2 < cols = 3. -/
theorem c7_counterexample :
    ((GridManager.new (1/4) (1/10) (1/10)).add_obstacles
        [ShapeM.rectangle (1/4) (1/20) (1/10) (1/5)]).is_valid 0 2 = true ∧
    (ShapeM.rectangle (1/4) (1/20) (1/10) (1/5)).contains
      (((2 : ℚ) + 1/2) * (1/10)) (((0 : ℚ) + 1/2) * (1/10)) = true ∧
    ((GridManager.new (1/4) (1/10) (1/10)).add_obstacles
        [ShapeM.rectangle (1/4) (1/20) (1/10) (1/5)]).occ (0, 2) = false := by
  refine ⟨by decide, by decide, by decide⟩

/-- C7 amended, witness: at the clipped cell (0, 2) of the counterexample grid
the equivalence is discharged concretely. -/
theorem c7_amended_witness :
    (((GridManager.new (1/4) (1/10) (1/10)).add_obstacles
        [ShapeM.rectangle (1/4) (1/20) (1/10) (1/5)]).occ (0, 2) = true ↔
      (∃ sh ∈ [ShapeM.rectangle (1/4) (1/20) (1/10) (1/5)],
        sh.contains (((2 : ℚ) + 1/2) * (1/10)) (((0 : ℚ) + 1/2) * (1/10)) = true) ∧
      (2 : ℤ) < ratTrunc ((1/4) / (1/10)) ∧ (0 : ℤ) < ratTrunc ((1/10) / (1/10))) :=
  c7_amended (1/4) (1/10) (1/10) [ShapeM.rectangle (1/4) (1/20) (1/10) (1/5)]
    0 2 (by norm_num) (by decide) (by decide) (by decide) (by decide)

/-
  Invariants of the genetic optimizer.
-/

/-- Two waypoints differ in their 1 mm rounded coordinates. -/
def coordNe (a b : Waypoint) : Prop :=
  (round3 a.x, round3 a.y) ≠ (round3 b.x, round3 b.y)

instance (a b : Waypoint) : Decidable (coordNe a b) := by
  unfold coordNe
  infer_instance

/-- dedupAux emits a subsequence of its input. -/
theorem dedupAux_sub (ws : List Waypoint) :
    ∀ (seen : Finset (ℚ × ℚ)) (w : Waypoint), w ∈ dedupAux ws seen → w ∈ ws := by
  induction ws with
  | nil => intro seen w h; cases h
  | cons a rest ih =>
    intro seen w h
    unfold dedupAux at h
    split_ifs at h with hc
    · exact List.mem_cons_of_mem a (ih seen w h)
    · rcases List.mem_cons.mp h with rfl | h2
      · exact List.mem_cons_self _ _
      · exact List.mem_cons_of_mem a (ih _ w h2)

/-- The deduplicated list is a subset of the input. -/
theorem dedup_sub {ws : List Waypoint} {w : Waypoint}
    (h : w ∈ GeneticOptimizer.deduplicate_waypoints ws) : w ∈ ws :=
  dedupAux_sub ws ∅ w h

/-- dedupAux output has pairwise-distinct rounded coordinates and avoids the
seen set. -/
theorem dedupAux_pairwise (ws : List Waypoint) :
    ∀ seen : Finset (ℚ × ℚ),
      (dedupAux ws seen).Pairwise coordNe ∧
      ∀ w ∈ dedupAux ws seen, (round3 w.x, round3 w.y) ∉ seen := by
  induction ws with
  | nil => intro seen; exact ⟨List.Pairwise.nil, by intro w h; cases h⟩
  | cons a rest ih =>
    intro seen
    unfold dedupAux
    split_ifs with hc
    · exact ih seen
    · obtain ⟨hpw, hseen⟩ := ih (insert (round3 a.x, round3 a.y) seen)
      refine ⟨List.pairwise_cons.mpr ⟨?_, hpw⟩, ?_⟩
      · intro w hw
        have := hseen w hw
        intro hco
        exact this (by rw [← hco]; exact Finset.mem_insert_self _ _)
      · intro w hw
        rcases List.mem_cons.mp hw with rfl | hw2
        · exact hc
        · intro hmem
          exact hseen w hw2 (Finset.mem_insert_of_mem hmem)

/-- The deduplicated list has pairwise-distinct rounded coordinates. -/
theorem dedup_pairwise (ws : List Waypoint) :
    (GeneticOptimizer.deduplicate_waypoints ws).Pairwise coordNe :=
  (dedupAux_pairwise ws ∅).1

/-- The deduplicated list has no duplicate values. -/
theorem dedup_nodup (ws : List Waypoint) :
    (GeneticOptimizer.deduplicate_waypoints ws).Nodup :=
  (dedup_pairwise ws).imp fun h => fun heq => h (by rw [heq])

/-- A list with pairwise-distinct rounded coordinates deduplicates to itself. -/
theorem dedupAux_eq_self (l : List Waypoint) :
    ∀ seen : Finset (ℚ × ℚ), l.Pairwise coordNe →
      (∀ w ∈ l, (round3 w.x, round3 w.y) ∉ seen) → dedupAux l seen = l := by
  induction l with
  | nil => intro seen _ _; rfl
  | cons a rest ih =>
    intro seen hpw hseen
    unfold dedupAux
    rw [if_neg (hseen a (List.mem_cons_self _ _))]
    congr 1
    apply ih _ (List.pairwise_cons.mp hpw).2
    intro w hw
    rw [Finset.mem_insert]
    push_neg
    refine ⟨?_, hseen w (List.mem_cons_of_mem a hw)⟩
    intro heq
    exact (List.pairwise_cons.mp hpw).1 w hw (by rw [heq])

/-- deduplication is the identity on lists with pairwise-distinct rounded
coordinates. -/
theorem dedup_eq_self {l : List Waypoint} (h : l.Pairwise coordNe) :
    GeneticOptimizer.deduplicate_waypoints l = l :=
  dedupAux_eq_self l ∅ h (by intro w _; exact Finset.not_mem_empty _)

/-- The invariant every individual maintains: duplicate-free, with all
waypoints drawn from the base list S. -/
def GAInv (S : List Waypoint) (ind : List Waypoint) : Prop :=
  ind.Nodup ∧ ∀ w ∈ ind, w ∈ S

theorem gainv_nil (S : List Waypoint) : GAInv S [] :=
  ⟨List.nodup_nil, by intro w h; cases h⟩

/-- Indexing a population of invariant individuals (default []) yields an
invariant individual. -/
theorem gainv_getD {S : List Waypoint} {pop : List (List Waypoint)}
    (h : ∀ ind ∈ pop, GAInv S ind) (i : ℕ) : GAInv S (pop.getD i []) := by
  by_cases hi : i < pop.length
  · rw [List.getD_eq_getElem pop [] hi]
    exact h _ (List.getElem_mem hi)
  · rw [List.getD_eq_default pop [] (by omega)]
    exact gainv_nil S

/-- Permutations preserve the individual invariant. -/
theorem gainv_perm {S l1 l2 : List Waypoint} (hp : l1.Perm l2)
    (h : GAInv S l2) : GAInv S l1 :=
  ⟨hp.nodup_iff.mpr h.1, fun w hw => h.2 w (hp.mem_iff.mp hw)⟩

/-- Ordered crossover preserves the individual invariant. -/
theorem crossover_gainv {S : List Waypoint} (rng : Rng) (ctr : ℕ)
    {p1 p2 : List Waypoint} (h1 : GAInv S p1) (h2 : GAInv S p2) :
    GAInv S (GeneticOptimizer.crossover rng ctr p1 p2).1 := by
  unfold GeneticOptimizer.crossover
  by_cases hsz : p1.length ≤ 2
  · simp only [if_pos hsz]
    exact h1
  · simp only [if_neg hsz]
    set a := rng.rint ctr 0 (p1.length - 2) with ha
    set b := rng.rint (ctr + 1) (a + 1) p1.length with hb
    set seg := (p1.drop a).take (b - a) with hseg
    set rest := ((p2.drop b) ++ (p2.take b)).filter (fun w => w ∉ seg) with hrest
    have hseg_sub : seg.Sublist p1 := (List.take_sublist _ _).trans (List.drop_sublist _ _)
    have hseg_nodup : seg.Nodup := hseg_sub.nodup h1.1
    have hrot_nodup : ((p2.drop b) ++ (p2.take b)).Nodup := by
      have hp2 : (p2.take b ++ p2.drop b).Nodup := by
        rw [List.take_append_drop]
        exact h2.1
      obtain ⟨hn1, hn2, hdisj⟩ := List.nodup_append.mp hp2
      exact List.nodup_append.mpr ⟨hn2, hn1, List.Disjoint.symm hdisj⟩
    have hrest_nodup : rest.Nodup := hrot_nodup.filter _
    have hrest_seg : ∀ w ∈ rest, w ∉ seg := by
      intro w hw
      have := List.of_mem_filter hw
      simpa using this
    have hrest_split : (rest.take (p1.length - b) ++ rest.drop (p1.length - b)).Nodup := by
      rw [List.take_append_drop]
      exact hrest_nodup
    obtain ⟨ht1, ht2, htdisj⟩ := List.nodup_append.mp hrest_split
    have hrest_sub : ∀ w ∈ rest, w ∈ p2 := by
      intro w hw
      have := List.mem_of_mem_filter hw
      rcases List.mem_append.mp this with h | h
      · exact List.mem_of_mem_drop h
      · exact List.mem_of_mem_take h
    constructor
    · refine List.nodup_append.mpr
        ⟨List.nodup_append.mpr ⟨ht2, hseg_nodup, ?_⟩, ht1, ?_⟩
      · intro w hw hw2
        exact hrest_seg w (List.mem_of_mem_drop hw) hw2
      · intro w hw hw2
        rcases List.mem_append.mp hw with h | h
        · exact List.Disjoint.symm htdisj h hw2
        · exact hrest_seg w (List.mem_of_mem_take hw2) h
    · intro w hw
      rcases List.mem_append.mp hw with h | h
      · rcases List.mem_append.mp h with h | h
        · exact h2.2 w (hrest_sub w (List.mem_of_mem_drop h))
        · exact h1.2 w (hseg_sub.mem h)
      · exact h2.2 w (hrest_sub w (List.mem_of_mem_take h))

/-- Swap mutation preserves the individual invariant. -/
theorem mutate_gainv {S : List Waypoint} (rng : Rng) (ctr : ℕ)
    {ind : List Waypoint} (h : GAInv S ind) :
    GAInv S (GeneticOptimizer.mutate rng ctr ind).1 := by
  unfold GeneticOptimizer.mutate
  by_cases hlen : ind.length ≤ 1
  · simp only [if_pos hlen]
    exact h
  · simp only [if_neg hlen]
    have h2 : 2 ≤ ind.length := by omega
    have hlen2 := rng.samp_len ctr ind.length 2 h2
    have hnd := rng.samp_nodup ctr ind.length 2 h2
    have hltall := rng.samp_lt ctr ind.length 2 h2
    obtain ⟨i1, i2, heq2⟩ := List.length_eq_two.mp hlen2
    rw [heq2]
    have hne : i1 ≠ i2 := by
      rw [heq2] at hnd
      simpa using hnd
    have hi1 : i1 < ind.length := hltall i1 (by rw [heq2]; simp)
    have hi2 : i2 < ind.length := hltall i2 (by rw [heq2]; simp)
    have hg1 : ([i1, i2].getD 0 0) = i1 := rfl
    have hg2 : ([i1, i2].getD 1 0) = i2 := rfl
    rw [hg1, hg2]
    have hv1 : ind.getD i2 ⟨0, 0, 0⟩ = ind[i2] := List.getD_eq_getElem ind _ hi2
    have hv2 : ind.getD i1 ⟨0, 0, 0⟩ = ind[i1] := List.getD_eq_getElem ind _ hi1
    rw [hv1, hv2]
    constructor
    · rw [List.nodup_iff_injective_getElem]
      have hindinj := List.nodup_iff_injective_getElem.mp h.1
      have hinj2 : ∀ (a b : ℕ) (ha : a < ind.length) (hb : b < ind.length),
          ind[a] = ind[b] → a = b := by
        intro a b ha hb hab
        have h9 := @hindinj ⟨a, ha⟩ ⟨b, hb⟩ hab
        exact congrArg Fin.val h9
      rintro ⟨j1, hj1⟩ ⟨j2, hj2⟩ hjeq
      simp only [List.length_set] at hj1 hj2
      simp only [List.getElem_set] at hjeq
      have hj : j1 = j2 := by
        split_ifs at hjeq with c1 c2 c3 c4 c5 c6 c7 c8
        all_goals first
          | omega
          | (have h9 := hinj2 _ _ _ _ hjeq; omega)
      exact Fin.ext hj
    · intro w hw
      rcases List.mem_or_eq_of_mem_set hw with hw2 | rfl
      · rcases List.mem_or_eq_of_mem_set hw2 with hw3 | rfl
        · exact h.2 w hw3
        · exact h.2 _ (List.getElem_mem hi2)
      · exact h.2 _ (List.getElem_mem hi1)

/-- Every individual of the initial population satisfies the invariant. -/
theorem initpop_gainv {S opt : List Waypoint} (hS : GAInv S opt) (rng : Rng) :
    ∀ (k ctr : ℕ) (ind : List Waypoint),
      ind ∈ (GeneticOptimizer.initialize_population rng opt k ctr).1 →
      GAInv S ind := by
  intro k
  induction k with
  | zero => intro ctr ind h; cases h
  | succ n ih =>
    intro ctr ind h
    unfold GeneticOptimizer.initialize_population at h
    rcases List.mem_cons.mp h with rfl | h2
    · exact gainv_perm (rng.shuf_perm ctr opt) hS
    · exact ih (ctr + 1) ind h2

/-- choice yields an invariant individual (or the empty list). -/
theorem choi_gainv {S : List Waypoint} (rng : Rng) (i : ℕ)
    {selected : List (List Waypoint)} (h : ∀ ind ∈ selected, GAInv S ind) :
    GAInv S (rng.choi i selected) := by
  rcases rng.choi_mem i selected with hm | he
  · exact h _ hm
  · rw [he]
    exact gainv_nil S

/-- Tournament selection yields invariant individuals. -/
theorem selection_gainv {S : List Waypoint} (rng : Rng)
    {pop : List (List Waypoint)} (scores : List ℝ) (ctr : ℕ)
    (h : ∀ ind ∈ pop, GAInv S ind) :
    ∀ ind ∈ (GeneticOptimizer.selection rng pop scores ctr).1, GAInv S ind := by
  unfold GeneticOptimizer.selection
  have haux : ∀ (L : List ℕ) (acc : List (List Waypoint) × ℕ),
      (∀ ind ∈ acc.1, GAInv S ind) →
      ∀ ind ∈ (L.foldl (fun acc _ => tournamentStep rng pop scores acc) acc).1,
        GAInv S ind := by
    intro L
    induction L with
    | nil => intro acc hacc; exact hacc
    | cons x rest ih =>
      intro acc hacc
      rw [List.foldl_cons]
      apply ih
      intro ind hind
      unfold tournamentStep at hind
      rcases List.mem_append.mp hind with hi | hi
      · exact hacc ind hi
      · rcases List.mem_singleton.mp hi with rfl
        exact gainv_getD h _
  exact haux _ ([], ctr) (by intro ind h2; cases h2)

/-- The child-building loop yields invariant individuals. -/
theorem buildChildren_gainv {S : List Waypoint} (rng : Rng) (P : GAParams)
    {selected : List (List Waypoint)} (hsel : ∀ ind ∈ selected, GAInv S ind) :
    ∀ (k ctr : ℕ) (ind : List Waypoint),
      ind ∈ (buildChildren rng P selected k ctr).1 → GAInv S ind := by
  intro k
  induction k with
  | zero => intro ctr ind h; cases h
  | succ n ih =>
    intro ctr ind h
    unfold buildChildren at h
    rcases List.mem_cons.mp h with rfl | h2
    · -- the freshly built child
      have hp1 : GAInv S (rng.choi ctr selected) := choi_gainv rng ctr hsel
      by_cases hc : rng.rand (ctr + 2) < P.crossover_rate
      · rw [if_pos hc]
        by_cases hm : rng.rand
            (GeneticOptimizer.crossover rng (ctr + 3) (rng.choi ctr selected)
              (rng.choi (ctr + 1) selected)).2 < P.mutation_rate
        · rw [if_pos hm]
          exact mutate_gainv rng _
            (crossover_gainv rng _ hp1 (choi_gainv rng _ hsel))
        · rw [if_neg hm]
          exact crossover_gainv rng _ hp1 (choi_gainv rng _ hsel)
      · rw [if_neg hc]
        by_cases hm : rng.rand (ctr + 3) < P.mutation_rate
        · rw [if_pos hm]
          exact mutate_gainv rng _ hp1
        · rw [if_neg hm]
          exact hp1
    · exact ih _ ind h2

/-- One generation preserves the invariant on the population and on the
elitist best individual. -/
theorem gaStep_gainv {S : List Waypoint} (rng : Rng) (P : GAParams)
    (s e : Waypoint) {pop : List (List Waypoint)}
    {best : Option (List Waypoint × ℝ)} (ctr : ℕ)
    (hpop : ∀ ind ∈ pop, GAInv S ind)
    (hbest : ∀ bi bf, best = some (bi, bf) → GAInv S bi) :
    (∀ ind ∈ (gaStep rng P s e pop best ctr).1, GAInv S ind) ∧
    (∀ bi bf, (gaStep rng P s e pop best ctr).2.1 = some (bi, bf) → GAInv S bi) := by
  unfold gaStep
  set scores := pop.map fun ind => GeneticOptimizer.fitness ind s e with hscores
  set idx := argmaxIdx scores with hidx
  rcases best with _ | ⟨bi0, bf0⟩
  · constructor
    · intro ind hind
      rcases List.mem_cons.mp hind with rfl | h2
      · exact gainv_getD hpop idx
      · exact buildChildren_gainv rng P
          (selection_gainv rng scores ctr hpop) _ _ _ h2
    · intro bi bf hsome
      have hsome2 : some (pop.getD idx [], scores.getD idx 0) = some (bi, bf) :=
        hsome
      obtain ⟨h1, h2⟩ := Prod.mk.injEq _ _ _ _ ▸ Option.some.inj hsome2
      exact h1 ▸ gainv_getD hpop idx
  · by_cases hlt : bf0 < scores.getD idx 0
    · constructor
      · intro ind hind
        rcases List.mem_cons.mp hind with rfl | h2
        · show GAInv S ((if bf0 < scores.getD idx 0
            then some (pop.getD idx [], scores.getD idx 0)
            else some (bi0, bf0)).getD ([], 0)).1
          rw [if_pos hlt]
          exact gainv_getD hpop idx
        · exact buildChildren_gainv rng P
            (selection_gainv rng scores ctr hpop) _ _ _ h2
      · intro bi bf hsome
        have hsome2 : (if bf0 < scores.getD idx 0
            then some (pop.getD idx [], scores.getD idx 0)
            else some (bi0, bf0)) = some (bi, bf) := hsome
        rw [if_pos hlt] at hsome2
        obtain ⟨h1, h2⟩ := Prod.mk.injEq _ _ _ _ ▸ Option.some.inj hsome2
        exact h1 ▸ gainv_getD hpop idx
    · constructor
      · intro ind hind
        rcases List.mem_cons.mp hind with rfl | h2
        · show GAInv S ((if bf0 < scores.getD idx 0
            then some (pop.getD idx [], scores.getD idx 0)
            else some (bi0, bf0)).getD ([], 0)).1
          rw [if_neg hlt]
          exact hbest bi0 bf0 rfl
        · exact buildChildren_gainv rng P
            (selection_gainv rng scores ctr hpop) _ _ _ h2
      · intro bi bf hsome
        have hsome2 : (if bf0 < scores.getD idx 0
            then some (pop.getD idx [], scores.getD idx 0)
            else some (bi0, bf0)) = some (bi, bf) := hsome
        rw [if_neg hlt] at hsome2
        obtain ⟨h1, h2⟩ := Prod.mk.injEq _ _ _ _ ▸ Option.some.inj hsome2
        exact h1 ▸ hbest bi0 bf0 rfl

/-- The generation loop preserves the invariant on the best individual. -/
theorem gaLoop_gainv {S : List Waypoint} (rng : Rng) (P : GAParams)
    (s e : Waypoint) :
    ∀ (gens : ℕ) (pop : List (List Waypoint))
      (best : Option (List Waypoint × ℝ)) (ctr : ℕ),
      (∀ ind ∈ pop, GAInv S ind) →
      (∀ bi bf, best = some (bi, bf) → GAInv S bi) →
      ∀ bi bf, gaLoop rng P s e gens pop best ctr = some (bi, bf) → GAInv S bi := by
  intro gens
  induction gens with
  | zero => intro pop best ctr _ hbest bi bf h; exact hbest bi bf h
  | succ n ih =>
    intro pop best ctr hpop hbest bi bf h
    unfold gaLoop at h
    obtain ⟨hpop2, hbest2⟩ := gaStep_gainv rng P s e ctr hpop hbest
    exact ih _ _ _ hpop2 hbest2 bi bf h

/-- getLastD on a nonempty list is its last element. -/
theorem getLastD_ne_nil {l : List Waypoint} (h : l ≠ []) (d : Waypoint) :
    l.getLastD d = l.getLast h := by
  rw [List.getLastD_eq_getLast?, List.getLast?_eq_getLast l h]
  rfl

/-- A list of length at least 2 splits as head, interior, last -- the anchor
decomposition used by the optimizer. -/
theorem ws_decomp (ws : List Waypoint) (h : 2 ≤ ws.length) (d : Waypoint) :
    ws = ws.headD d :: ((ws.drop 1).dropLast ++ [ws.getLastD d]) := by
  cases ws with
  | nil => simp at h
  | cons a t =>
    have htne : t ≠ [] := by
      intro he
      rw [he] at h
      simp at h
    rw [List.headD_cons, List.getLastD_cons, getLastD_ne_nil htne a]
    have hdrop : (a :: t).drop 1 = t := rfl
    rw [hdrop, List.dropLast_append_getLast htne]

/-- headD of a nonempty list is a member. -/
theorem headD_mem {l : List Waypoint} (h : l ≠ []) (d : Waypoint) :
    l.headD d ∈ l := by
  cases l with
  | nil => exact absurd rfl h
  | cons a t =>
    rw [List.headD_cons]
    exact List.mem_cons_self _ _

/-- getLastD of a nonempty list is a member. -/
theorem getLastD_mem {l : List Waypoint} (h : l ≠ []) (d : Waypoint) :
    l.getLastD d ∈ l := by
  rw [getLastD_ne_nil h]
  exact List.getLast_mem h

/-- The optimizer only reorders and drops waypoints: every output waypoint is
an input waypoint. -/
theorem optimize_sub (rng : Rng) (P : GAParams) (input : List Waypoint)
    (w : Waypoint) (hw : w ∈ GeneticOptimizer.optimize rng P input) :
    w ∈ input := by
  unfold GeneticOptimizer.optimize at hw
  by_cases h1 : input.length ≤ 2
  · rw [if_pos h1] at hw
    exact hw
  · rw [if_neg h1] at hw
    by_cases h2 : (GeneticOptimizer.deduplicate_waypoints input).length ≤ 2
    · rw [if_pos h2] at hw
      exact dedup_sub hw
    · rw [if_neg h2] at hw
      by_cases h3 : (((GeneticOptimizer.deduplicate_waypoints input).drop 1).dropLast).length ≤ 1
      · rw [if_pos h3] at hw
        exact dedup_sub hw
      · rw [if_neg h3] at hw
        set ws := GeneticOptimizer.deduplicate_waypoints input with hws
        have hwsne : ws ≠ [] := by
          intro he
          rw [he] at h2
          simp at h2
        have hsub : ∀ x ∈ ws, x ∈ input := fun x hx => dedup_sub hx
        set s := ws.headD ⟨0, 0, 0⟩ with hs
        set e := ws.getLastD ⟨0, 0, 0⟩ with he
        set opt := (ws.drop 1).dropLast with hopt
        set ip := GeneticOptimizer.initialize_population rng opt P.population_size 0
          with hip
        have hoptnd : GAInv opt opt :=
          ⟨((List.dropLast_sublist _).trans (List.drop_sublist _ _)).nodup
            (dedup_nodup input), fun x hx => hx⟩
        rcases hm : gaLoop rng P s e P.generations ip.1 none ip.2 with _ | ⟨bi, bf⟩
        · simp only [hm] at hw
          exact hsub w hw
        · simp only [hm] at hw
          have hga : GAInv opt bi :=
            gaLoop_gainv rng P s e P.generations ip.1 none ip.2
              (fun ind hind => initpop_gainv hoptnd rng _ _ ind hind)
              (by intro bi2 bf2 hcon; cases hcon) bi bf hm
          have hw2 := dedup_sub hw
          rcases List.mem_cons.mp hw2 with rfl | hw3
          · exact hsub _ (headD_mem hwsne _)
          · rcases List.mem_append.mp hw3 with hw4 | hw4
            · exact hsub w
                (((List.dropLast_sublist _).trans (List.drop_sublist _ _)).mem
                  (hga.2 w hw4))
            · rcases List.mem_singleton.mp hw4 with rfl
              exact hsub _ (getLastD_mem hwsne _)

/-- C5 counterexample: on the input [A, B, A], whose last waypoint duplicates
the first at 1 mm precision, the input deduplication drops the final anchor:
the optimizer returns [A, B], whose last entry differs from the input's. -/
theorem c5_counterexample :
    GeneticOptimizer.optimize rng0 ⟨50, 30, 1/10, 8/10⟩
      [⟨0, 0, 0⟩, ⟨1, 0, 0⟩, ⟨0, 0, 0⟩] = [⟨0, 0, 0⟩, ⟨1, 0, 0⟩] ∧
    ([⟨0, 0, 0⟩, ⟨1, 0, 0⟩] : List Waypoint).getLast? ≠
      ([⟨0, 0, 0⟩, ⟨1, 0, 0⟩, ⟨0, 0, 0⟩] : List Waypoint).getLast? := by
  constructor
  · have hd : GeneticOptimizer.deduplicate_waypoints
        [⟨0, 0, 0⟩, ⟨1, 0, 0⟩, ⟨0, 0, 0⟩] = [⟨0, 0, 0⟩, ⟨1, 0, 0⟩] := by decide
    unfold GeneticOptimizer.optimize
    rw [if_neg (by decide), hd, if_pos (by decide)]
  · decide

/-- Deduplication keeps the head: the first waypoint is never dropped. -/
theorem dedup_headq (ws : List Waypoint) :
    (GeneticOptimizer.deduplicate_waypoints ws).head? = ws.head? := by
  unfold GeneticOptimizer.deduplicate_waypoints
  cases ws with
  | nil => rfl
  | cons a rest =>
    unfold dedupAux
    rw [if_neg (Finset.not_mem_empty _)]
    rfl

/-- C5 amended: the first output entry always equals the first input entry;
the last output entry equals the last input entry provided no two input
waypoints share the same coordinates rounded to 1 mm (deduplication can
otherwise remove the final anchor, as in the counterexample). -/
theorem c5_amended (rng : Rng) (P : GAParams) (input : List Waypoint) :
    (GeneticOptimizer.optimize rng P input).head? = input.head? ∧
    (input.Pairwise coordNe →
      (GeneticOptimizer.optimize rng P input).getLast? = input.getLast?) := by
  constructor
  · unfold GeneticOptimizer.optimize
    by_cases h1 : input.length ≤ 2
    · rw [if_pos h1]
    · rw [if_neg h1]
      by_cases h2 : (GeneticOptimizer.deduplicate_waypoints input).length ≤ 2
      · rw [if_pos h2]
        exact dedup_headq input
      · rw [if_neg h2]
        by_cases h3 :
            (((GeneticOptimizer.deduplicate_waypoints input).drop 1).dropLast).length ≤ 1
        · rw [if_pos h3]
          exact dedup_headq input
        · rw [if_neg h3]
          set ws := GeneticOptimizer.deduplicate_waypoints input with hws
          obtain ⟨a, ta, hia⟩ : ∃ a ta, input = a :: ta := by
            cases input with
            | nil => exact absurd (by decide : ([] : List Waypoint).length ≤ 2) h1
            | cons a ta => exact ⟨a, ta, rfl⟩
          have hwhead : ws.head? = some a := by
            rw [hws, dedup_headq, hia]
            rfl
          have hshead : ws.headD ⟨0, 0, 0⟩ = a := by
            rw [List.headD_eq_head?_getD, hwhead]
            rfl
          rcases hm : gaLoop rng P (ws.headD ⟨0, 0, 0⟩) (ws.getLastD ⟨0, 0, 0⟩)
              P.generations
              (GeneticOptimizer.initialize_population rng ((ws.drop 1).dropLast)
                P.population_size 0).1 none
              (GeneticOptimizer.initialize_population rng ((ws.drop 1).dropLast)
                P.population_size 0).2 with _ | ⟨bi, bf⟩
          · simp only [hm]
            exact dedup_headq input
          · simp only [hm]
            rw [dedup_headq, List.head?_cons, hshead, hia, List.head?_cons]
  intro hco
  have hdedup : GeneticOptimizer.deduplicate_waypoints input = input :=
    dedup_eq_self hco
  have hnd : input.Nodup := hco.imp fun h heq => h (by rw [heq])
  unfold GeneticOptimizer.optimize
  by_cases h1 : input.length ≤ 2
  · rw [if_pos h1]
  · rw [if_neg h1]
    simp only [hdedup]
    rw [if_neg h1]
    by_cases h3 : ((input.drop 1).dropLast).length ≤ 1
    · rw [if_pos h3]
    · rw [if_neg h3]
      set s := input.headD ⟨0, 0, 0⟩ with hs
      set e := input.getLastD ⟨0, 0, 0⟩ with he
      set opt := (input.drop 1).dropLast with hopt
      set ip := GeneticOptimizer.initialize_population rng opt P.population_size 0
        with hip
      have hlen2 : 2 ≤ input.length := by omega
      have hdec : input = s :: (opt ++ [e]) := ws_decomp input hlen2 _
      have hoptinv : GAInv opt opt :=
        ⟨((List.dropLast_sublist _).trans (List.drop_sublist _ _)).nodup hnd,
          fun x hx => hx⟩
      rcases hm : gaLoop rng P s e P.generations ip.1 none ip.2 with _ | ⟨bi, bf⟩
      · simp only [hm]
      · simp only [hm]
        have hga : GAInv opt bi :=
          gaLoop_gainv rng P s e P.generations ip.1 none ip.2
            (fun ind hind => initpop_gainv hoptinv rng _ _ ind hind)
            (by intro bi2 bf2 hcon; cases hcon) bi bf hm
        -- structure of the input decomposition
        have hnd2 : (s :: (opt ++ [e])).Nodup := hdec ▸ hnd
        obtain ⟨hsnot, hoptE⟩ := List.nodup_cons.mp hnd2
        obtain ⟨hoptnd, hEnd, hdisj⟩ := List.nodup_append.mp hoptE
        have hmemI : ∀ x ∈ s :: (bi ++ [e]), x ∈ input := by
          intro x hx
          rcases List.mem_cons.mp hx with rfl | hx2
          · rw [hdec]; exact List.mem_cons_self _ _
          · rcases List.mem_append.mp hx2 with hx3 | hx3
            · rw [hdec]
              exact List.mem_cons_of_mem _
                (List.mem_append_left _ (hga.2 x hx3))
            · rw [hdec]
              exact List.mem_cons_of_mem _ (List.mem_append_right _ hx3)
        have hnd3 : (s :: (bi ++ [e])).Nodup := by
          refine List.nodup_cons.mpr ⟨?_, ?_⟩
          · intro hx
            rcases List.mem_append.mp hx with hx2 | hx2
            · exact hsnot (List.mem_append_left _ (hga.2 s hx2))
            · exact hsnot (List.mem_append_right _ hx2)
          · refine List.nodup_append.mpr ⟨hga.1, hEnd, ?_⟩
            intro x hx hx2
            rcases List.mem_singleton.mp hx2 with rfl
            exact hdisj (hga.2 _ hx) (List.mem_singleton_self _)
        have hsymm : Symmetric coordNe := by
          intro x y hxy heq
          exact hxy heq.symm
        have hpw3 : (s :: (bi ++ [e])).Pairwise coordNe := by
          refine List.Pairwise.imp_of_mem ?_ hnd3
          intro a b ha hb hne
          exact List.Pairwise.forall hsymm hco (hmemI a ha) (hmemI b hb) hne
        rw [dedup_eq_self hpw3]
        rw [hdec]
        have hres : (s :: (bi ++ [e])).getLast? = some e := by
          rw [← List.cons_append, List.getLast?_concat]
        have hinp : (s :: (opt ++ [e])).getLast? = some e := by
          rw [← List.cons_append, List.getLast?_concat]
        rw [hres, hinp]

/-- C5 amended, witness: the head clause applied outright and the last-entry
clause with its pairwise-distinctness hypothesis discharged on a
duplicate-free two-waypoint input. -/
theorem c5_amended_witness :
    (GeneticOptimizer.optimize rng0 ⟨50, 30, 1/10, 8/10⟩
        [⟨0, 0, 0⟩, ⟨1, 0, 0⟩]).head? =
      ([⟨0, 0, 0⟩, ⟨1, 0, 0⟩] : List Waypoint).head? ∧
    (GeneticOptimizer.optimize rng0 ⟨50, 30, 1/10, 8/10⟩
        [⟨0, 0, 0⟩, ⟨1, 0, 0⟩]).getLast? =
      ([⟨0, 0, 0⟩, ⟨1, 0, 0⟩] : List Waypoint).getLast? :=
  ⟨(c5_amended rng0 ⟨50, 30, 1/10, 8/10⟩ [⟨0, 0, 0⟩, ⟨1, 0, 0⟩]).1,
    (c5_amended rng0 ⟨50, 30, 1/10, 8/10⟩ [⟨0, 0, 0⟩, ⟨1, 0, 0⟩]).2 (by decide)⟩

/-
  Snap-to-grid and free-cell invariants of the planners (claim C2).
-/

/-- get_neighbors yields free cells only. -/
theorem neighbors_free (g : GridManager) (r c : ℤ) (d : Bool) :
    ∀ nb ∈ g.get_neighbors r c d, g.is_free nb.1 nb.2 = true := by
  intro nb hnb
  unfold GridManager.get_neighbors at hnb
  obtain ⟨m, _, hsome⟩ := List.mem_filterMap.mp hnb
  split_ifs at hsome with hc
  cases hsome
  rw [Bool.and_eq_true] at hc
  exact hc.2

/-- Every parent pointer of the search joins two free cells. -/
def CfFree (g : GridManager) (cf : Cell → Option Cell) : Prop :=
  ∀ v p : Cell, cf v = some p →
    g.is_free v.1 v.2 = true ∧ g.is_free p.1 p.2 = true

/-- Every open-list entry holds a free cell. -/
def OpenFree (g : GridManager) (l : List Entry) : Prop :=
  ∀ e ∈ l, g.is_free e.2.2.1 e.2.2.2 = true

/-- popMin returns a member and a sublist of members. -/
theorem popMin_mem :
    ∀ {l : List Entry} {m : Entry} {rest : List Entry},
      popMin l = some (m, rest) → m ∈ l ∧ ∀ e ∈ rest, e ∈ l := by
  intro l
  induction l with
  | nil => intro m rest h; cases h
  | cons e es ih =>
    intro m rest h
    unfold popMin at h
    rcases hes : popMin es with _ | ⟨m0, r0⟩
    · rw [hes] at h
      have h2 : some (e, ([] : List Entry)) = some (m, rest) := h
      obtain ⟨rfl, rfl⟩ := Prod.mk.injEq _ _ _ _ ▸ Option.some.inj h2
      exact ⟨List.mem_cons_self _ _, by intro e2 h2; cases h2⟩
    · rw [hes] at h
      have h4 : (if entryLt m0 e = true then some (m0, e :: r0)
          else some (e, es)) = some (m, rest) := h
      obtain ⟨hm0, hr0⟩ := ih hes
      by_cases hlt : entryLt m0 e = true
      · rw [if_pos hlt] at h4
        obtain ⟨rfl, rfl⟩ := Prod.mk.injEq _ _ _ _ ▸ Option.some.inj h4
        refine ⟨List.mem_cons_of_mem _ hm0, ?_⟩
        intro e2 h2
        rcases List.mem_cons.mp h2 with rfl | h3
        · exact List.mem_cons_self _ _
        · exact List.mem_cons_of_mem _ (hr0 e2 h3)
      · rw [if_neg hlt] at h4
        obtain ⟨rfl, rfl⟩ := Prod.mk.injEq _ _ _ _ ▸ Option.some.inj h4
        exact ⟨List.mem_cons_self _ _, fun e2 h2 => List.mem_cons_of_mem _ h2⟩

/-- One neighbor relaxation preserves the free-cell invariants. -/
theorem expandOne_pres (g : GridManager) (goal cur : Cell) (st : AState)
    (nb : Cell) (h1 : CfFree g st.cf) (h2 : OpenFree g st.openl)
    (hcur : g.is_free cur.1 cur.2 = true) (hnb : g.is_free nb.1 nb.2 = true) :
    CfFree g (expandOne g goal cur st nb).cf ∧
      OpenFree g (expandOne g goal cur st nb).openl := by
  unfold expandOne
  set t : GVal := (((st.g cur).getD (0, 0)).1 + (stepCost cur nb).1,
    ((st.g cur).getD (0, 0)).2 + (stepCost cur nb).2)
  by_cases him : (match st.g nb with
    | none => true
    | some gn => gLt t gn) = true
  · rw [if_pos him]
    constructor
    · intro v p hvp
      simp only [] at hvp
      by_cases hv : v = nb
      · rw [if_pos hv] at hvp
        cases hvp
        exact ⟨hv ▸ hnb, hcur⟩
      · rw [if_neg hv] at hvp
        exact h1 v p hvp
    · intro e he
      rcases List.mem_append.mp he with h3 | h3
      · exact h2 e h3
      · rcases List.mem_singleton.mp h3 with rfl
        exact hnb
  · rw [if_neg him]
    exact ⟨h1, h2⟩

/-- Relaxing all neighbors preserves the free-cell invariants. -/
theorem expandAll_pres (g : GridManager) (goal cur : Cell) (st : AState)
    (h1 : CfFree g st.cf) (h2 : OpenFree g st.openl)
    (hcur : g.is_free cur.1 cur.2 = true) :
    CfFree g (expandAll g goal cur st).cf ∧
      OpenFree g (expandAll g goal cur st).openl := by
  unfold expandAll
  have haux : ∀ (L : List Cell), (∀ nb ∈ L, g.is_free nb.1 nb.2 = true) →
      ∀ st : AState, CfFree g st.cf → OpenFree g st.openl →
      CfFree g (L.foldl (expandOne g goal cur) st).cf ∧
        OpenFree g (L.foldl (expandOne g goal cur) st).openl := by
    intro L
    induction L with
    | nil => intro _ st hc ho; exact ⟨hc, ho⟩
    | cons nb rest ih =>
      intro hfree st hc ho
      rw [List.foldl_cons]
      obtain ⟨hc2, ho2⟩ := expandOne_pres g goal cur st nb hc ho hcur
        (hfree nb (List.mem_cons_self _ _))
      exact ih (fun x hx => hfree x (List.mem_cons_of_mem _ hx)) _ hc2 ho2
  exact haux _ (neighbors_free g cur.1 cur.2 true) st h1 h2

/-- Every cell of a reconstructed chain is free. -/
theorem reconstructAux_free (g : GridManager) (cf : Cell → Option Cell)
    (h1 : CfFree g cf) :
    ∀ (fuel : ℕ) (cur : Cell), g.is_free cur.1 cur.2 = true →
      ∀ x ∈ reconstructAux cf fuel cur, g.is_free x.1 x.2 = true := by
  intro fuel
  induction fuel with
  | zero =>
    intro cur hcur x hx
    rcases List.mem_singleton.mp hx with rfl
    exact hcur
  | succ n ih =>
    intro cur hcur x hx
    unfold reconstructAux at hx
    rcases hcf : cf cur with _ | p
    · rw [hcf] at hx
      rcases List.mem_singleton.mp hx with rfl
      exact hcur
    · rw [hcf] at hx
      rcases List.mem_cons.mp hx with rfl | hx2
      · exact hcur
      · exact ih p (h1 cur p hcf).2 x hx2

/-- Every waypoint produced by the A-star loop is a free cell center. -/
theorem astarLoop_free (g : GridManager) (goal : Cell) :
    ∀ (fuel : ℕ) (st : AState), CfFree g st.cf → OpenFree g st.openl →
      ∀ w ∈ astarLoop g goal fuel st, FreeCenter g w := by
  intro fuel
  induction fuel with
  | zero => intro st _ _ w hw; cases hw
  | succ n ih =>
    intro st h1 h2 w hw
    unfold astarLoop at hw
    rcases hp : popMin st.openl with _ | ⟨e, rest⟩
    · rw [hp] at hw
      cases hw
    · rw [hp] at hw
      have hw2 : w ∈ (if e.2.2 = goal then reconstructPath g st.cf e.2.2
          else astarLoop g goal n (expandAll g goal e.2.2
            { openl := rest, counter := st.counter, cf := st.cf, g := st.g })) :=
        hw
      obtain ⟨hmem, hrest⟩ := popMin_mem hp
      have hcur : g.is_free e.2.2.1 e.2.2.2 = true := h2 e hmem
      by_cases hg : e.2.2 = goal
      · rw [if_pos hg] at hw2
        unfold reconstructPath at hw2
        obtain ⟨rc, hrc, rfl⟩ := List.mem_map.mp hw2
        have := reconstructAux_free g st.cf h1 _ e.2.2 hcur rc
          (List.mem_reverse.mp hrc)
        exact ⟨rc.1, rc.2, this, rfl⟩
      · rw [if_neg hg] at hw2
        obtain ⟨hc2, ho2⟩ := expandAll_pres g goal e.2.2
          { openl := rest, counter := st.counter, cf := st.cf, g := st.g }
          h1 (fun e2 he2 => h2 e2 (hrest e2 he2)) hcur
        exact ih _ hc2 ho2 w hw2

/-- Every waypoint returned by AStarPlanner.plan is a free cell center. -/
theorem astar_free (g : GridManager) (s t : Cell) :
    ∀ w ∈ AStarPlanner.plan g s t, FreeCenter g w := by
  intro w hw
  unfold AStarPlanner.plan at hw
  split_ifs at hw with hst
  · rw [Bool.and_eq_true] at hst
    refine astarLoop_free g t _ _ ?_ ?_ w hw
    · intro v p hvp
      cases hvp
    · intro e he
      rcases List.mem_singleton.mp he with rfl
      exact hst.1
  · cases hw

/-- A segment step emits free cell centers only. -/
theorem attachSegment_free (g : GridManager) (row : ℤ)
    (acc : List Waypoint × Finset Cell) (seg : ℤ × ℤ)
    (hacc : ∀ w ∈ acc.1, FreeCenter g w) :
    ∀ w ∈ (attachSegment g row acc seg).1, FreeCenter g w := by
  intro w hw
  unfold attachSegment at hw
  simp only [] at hw
  rcases List.mem_append.mp hw with hw1 | hw1
  · -- the possibly connector-extended base
    by_cases hcond : acc.1 ≠ [] ∧ (sweepSegment g row seg acc.2).1 ≠ []
    · rw [if_pos hcond] at hw1
      by_cases hnav : CoveragePlanner.needs_navigation g
          (acc.1.getLastD ⟨0, 0, 0⟩)
          ((sweepSegment g row seg acc.2).1.headD ⟨0, 0, 0⟩) = true
      · rw [if_pos hnav] at hw1
        by_cases hlen : 2 < (AStarPlanner.plan g
            (g.world_to_grid (acc.1.getLastD ⟨0, 0, 0⟩).x
              (acc.1.getLastD ⟨0, 0, 0⟩).y)
            (g.world_to_grid
              ((sweepSegment g row seg acc.2).1.headD ⟨0, 0, 0⟩).x
              ((sweepSegment g row seg acc.2).1.headD ⟨0, 0, 0⟩).y)).length
        · rw [if_pos hlen] at hw1
          rcases List.mem_append.mp hw1 with hw2 | hw2
          · exact hacc w hw2
          · have hw3 := (List.dropLast_sublist _).mem hw2
            have hw4 := List.mem_of_mem_drop hw3
            exact astar_free g _ _ w hw4
        · rw [if_neg hlen] at hw1
          exact hacc w hw1
      · rw [if_neg hnav] at hw1
        exact hacc w hw1
    · rw [if_neg hcond] at hw1
      exact hacc w hw1
  · -- the fresh sweep
    obtain ⟨cs, _, h1, _⟩ := sweepSegment_spec g row seg acc.2
    rw [h1] at hw1
    obtain ⟨c2, hc2, rfl⟩ := List.mem_map.mp hw1
    have := List.of_mem_filter hc2
    rw [Bool.and_eq_true] at this
    exact ⟨row, c2, this.2, rfl⟩

/-- A row step emits free cell centers only. -/
theorem processRow_free (g : GridManager) (acc : List Waypoint × Finset Cell)
    (r : ℕ) (hacc : ∀ w ∈ acc.1, FreeCenter g w) :
    ∀ w ∈ (processRow g acc r).1, FreeCenter g w := by
  have haux : ∀ (segs : List (ℤ × ℤ)) (acc2 : List Waypoint × Finset Cell),
      (∀ w ∈ acc2.1, FreeCenter g w) →
      ∀ w ∈ (segs.foldl (attachSegment g (r : ℤ)) acc2).1, FreeCenter g w := by
    intro segs
    induction segs with
    | nil => intro acc2 hacc2; exact hacc2
    | cons sg rest ih =>
      intro acc2 hacc2
      rw [List.foldl_cons]
      exact ih _ (attachSegment_free g _ acc2 sg hacc2)
  exact haux _ acc hacc

/-- Every waypoint of the coverage planner is a free cell center. -/
theorem coverage_free (g : GridManager) :
    ∀ w ∈ CoveragePlanner.plan_with_obstacles g, FreeCenter g w := by
  unfold CoveragePlanner.plan_with_obstacles
  have haux : ∀ (rows : List ℕ) (acc : List Waypoint × Finset Cell),
      (∀ w ∈ acc.1, FreeCenter g w) →
      ∀ w ∈ (rows.foldl (processRow g) acc).1, FreeCenter g w := by
    intro rows
    induction rows with
    | nil => intro acc hacc; exact hacc
    | cons r rest ih =>
      intro acc hacc
      rw [List.foldl_cons]
      exact ih _ (processRow_free g acc r hacc)
  exact haux _ ([], ∅) (by intro w hw; cases hw)

/-- Gap stitching emits free cell centers when the input does. -/
theorem connect_gaps_free (g : GridManager) (l : List Waypoint)
    (hl : ∀ w ∈ l, FreeCenter g w) :
    ∀ w ∈ HybridPlanner.connect_gaps g l, FreeCenter g w := by
  unfold HybridPlanner.connect_gaps
  by_cases hlen : l.length ≤ 1
  · rw [if_pos hlen]
    exact hl
  · rw [if_neg hlen]
    have haux : ∀ (ps : List (Waypoint × Waypoint)) (acc : List Waypoint),
        (∀ p ∈ ps, p.2 ∈ l) → (∀ w ∈ acc, FreeCenter g w) →
        ∀ w ∈ ps.foldl (fun acc pq => connectStep g acc pq.1 pq.2) acc,
          FreeCenter g w := by
      intro ps
      induction ps with
      | nil => intro acc _ hacc; exact hacc
      | cons pq rest ih =>
        intro acc hps hacc
        rw [List.foldl_cons]
        apply ih _ (fun p hp => hps p (List.mem_cons_of_mem _ hp))
        intro w hw
        unfold connectStep at hw
        dsimp only [] at hw
        split_ifs at hw with h1 h2
        · rcases List.mem_append.mp hw with hw2 | hw2
          · exact hacc w hw2
          · exact astar_free g _ _ w (List.mem_of_mem_drop hw2)
        · rcases List.mem_append.mp hw with hw2 | hw2
          · exact hacc w hw2
          · rcases List.mem_singleton.mp hw2 with rfl
            exact hl _ (hps pq (List.mem_cons_self _ _))
        · rcases List.mem_append.mp hw with hw2 | hw2
          · exact hacc w hw2
          · rcases List.mem_singleton.mp hw2 with rfl
            exact hl _ (hps pq (List.mem_cons_self _ _))
    apply haux
    · intro p hp
      exact (List.tail_sublist l).mem (List.of_mem_zip hp).2
    · intro w hw
      rcases List.mem_singleton.mp hw with rfl
      apply hl
      apply headD_mem
      intro he
      rw [he] at hlen
      simp at hlen

/-- C2: every waypoint emitted by the A-star planner, the coverage planner or
the hybrid planner is the world center of a free grid cell, and the genetic
optimizer only permutes and drops waypoints, so its output waypoints are
waypoints of its input. -/
theorem c2_snap_to_free_centers :
    (∀ (g : GridManager) (s t : Cell), ∀ w ∈ AStarPlanner.plan g s t,
      FreeCenter g w) ∧
    (∀ g : GridManager, ∀ w ∈ CoveragePlanner.plan_with_obstacles g,
      FreeCenter g w) ∧
    (∀ (rng : Rng) (g : GridManager) (P : GAParams),
      ∀ w ∈ HybridPlanner.plan rng g P, FreeCenter g w) ∧
    (∀ (rng : Rng) (P : GAParams) (input : List Waypoint),
      ∀ w ∈ GeneticOptimizer.optimize rng P input, w ∈ input) := by
  refine ⟨astar_free, coverage_free, ?_, fun rng P input w hw => optimize_sub rng P input w hw⟩
  intro rng g P w hw
  unfold HybridPlanner.plan at hw
  by_cases hcov : CoveragePlanner.plan_with_obstacles g = []
  · rw [if_pos hcov] at hw
    cases hw
  · rw [if_neg hcov] at hw
    by_cases hlen : 10 <
        (HybridPlanner.connect_gaps g (CoveragePlanner.plan_with_obstacles g)).length
    · rw [if_pos hlen] at hw
      exact connect_gaps_free g _ (coverage_free g) w
        (optimize_sub rng P _ w hw)
    · rw [if_neg hlen] at hw
      exact connect_gaps_free g _ (coverage_free g) w hw

/-- C2 witness: the clauses discharged on the concrete obstacle-free grid. -/
theorem c2_snap_to_free_centers_witness :
    FreeCenter gridC3 ⟨1/2, 1/2, 0⟩ ∧ FreeCenter gridC6 ⟨1/20, 1/20, 0⟩ ∧
    (⟨0, 0, 0⟩ : Waypoint) ∈ [⟨1, 1, 1⟩, ⟨0, 0, 0⟩] := by
  refine ⟨?_, ?_, ?_⟩
  · exact c2_snap_to_free_centers.1 gridC3 (0, 0) (3, 1) ⟨1/2, 1/2, 0⟩
      (by decide)
  · exact c2_snap_to_free_centers.2.1 gridC6 ⟨1/20, 1/20, 0⟩ (by decide)
  · exact c2_snap_to_free_centers.2.2.2 rng0 ⟨50, 30, 1/10, 8/10⟩
      [⟨1, 1, 1⟩, ⟨0, 0, 0⟩] ⟨0, 0, 0⟩ (by
        unfold GeneticOptimizer.optimize
        rw [if_pos (by decide)]
        decide)

/-
  Best-fitness tracking of the genetic optimizer (claim C9).
-/

/-- np.argmax dominates every element of the list. -/
theorem argmaxIdx_ge (l : List ℝ) : ∀ x ∈ l, x ≤ l.getD (argmaxIdx l) 0 := by
  induction l with
  | nil => intro x hx; cases hx
  | cons a t ih =>
    cases t with
    | nil =>
      intro x hx
      rcases List.mem_cons.mp hx with rfl | hx2
      · exact le_refl x
      · cases hx2
    | cons b u =>
      intro x hx
      have hred : argmaxIdx (a :: b :: u) =
          if a < (b :: u).getD (argmaxIdx (b :: u)) 0 then argmaxIdx (b :: u) + 1
          else 0 := rfl
      by_cases h : a < (b :: u).getD (argmaxIdx (b :: u)) 0
      · rw [hred, if_pos h, List.getD_cons_succ]
        rcases List.mem_cons.mp hx with rfl | hx2
        · exact le_of_lt h
        · exact ih x hx2
      · rw [hred, if_neg h, List.getD_cons_zero]
        rcases List.mem_cons.mp hx with rfl | hx2
        · exact le_refl x
        · exact le_trans (ih x hx2) (not_lt.mp h)

/-- np.argmax of a nonempty list is a valid index. -/
theorem argmaxIdx_lt (l : List ℝ) (h : l ≠ []) : argmaxIdx l < l.length := by
  induction l with
  | nil => exact absurd rfl h
  | cons a t ih =>
    cases t with
    | nil => exact Nat.zero_lt_one
    | cons b u =>
      have hred : argmaxIdx (a :: b :: u) =
          if a < (b :: u).getD (argmaxIdx (b :: u)) 0 then argmaxIdx (b :: u) + 1
          else 0 := rfl
      rw [hred]
      by_cases hc : a < (b :: u).getD (argmaxIdx (b :: u)) 0
      · rw [if_pos hc]
        exact Nat.succ_lt_succ (ih (List.cons_ne_nil b u))
      · rw [if_neg hc]
        exact Nat.succ_pos _

/-- A generation always outputs a nonempty population (the elitist slot). -/
theorem gaStep_pop_ne (rng : Rng) (P : GAParams) (s e : Waypoint)
    (pop : List (List Waypoint)) (best : Option (List Waypoint × ℝ)) (ctr : ℕ) :
    (gaStep rng P s e pop best ctr).1 ≠ [] := by
  obtain ⟨x, y, hxy⟩ : ∃ x y, (gaStep rng P s e pop best ctr).1 = x :: y :=
    ⟨_, _, rfl⟩
  rw [hxy]
  exact List.cons_ne_nil x y

/-- getD through the fitness score map, at a valid index. -/
theorem getD_map_fitness (s e : Waypoint) :
    ∀ (pop : List (List Waypoint)) (n : ℕ), n < pop.length →
      (pop.map fun ind => GeneticOptimizer.fitness ind s e).getD n 0 =
        GeneticOptimizer.fitness (pop.getD n []) s e := by
  intro pop
  induction pop with
  | nil => intro n h; cases h
  | cons a t ih =>
    intro n h
    cases n with
    | zero => rfl
    | succ m =>
      rw [List.map_cons, List.getD_cons_succ, List.getD_cons_succ]
      exact ih m (Nat.lt_of_succ_lt_succ h)

/-- One generation: the tracked best individual exists afterwards, scores its
recorded fitness, dominates the fitness of every member of the scored
population, and never decreases. -/
theorem gaStep_best (rng : Rng) (P : GAParams) (s e : Waypoint)
    (pop : List (List Waypoint)) (best : Option (List Waypoint × ℝ)) (ctr : ℕ)
    (hpop : pop ≠ [])
    (hbest : ∀ bi bf, best = some (bi, bf) →
      bf = GeneticOptimizer.fitness bi s e) :
    ∃ bi2 bf2, (gaStep rng P s e pop best ctr).2.1 = some (bi2, bf2) ∧
      bf2 = GeneticOptimizer.fitness bi2 s e ∧
      (∀ ind ∈ pop, GeneticOptimizer.fitness ind s e ≤ bf2) ∧
      (∀ bi bf, best = some (bi, bf) → bf ≤ bf2) := by
  set scores := pop.map fun ind => GeneticOptimizer.fitness ind s e with hscores
  set idx := argmaxIdx scores with hidx
  have hsne : scores ≠ [] := by
    rw [hscores]
    intro hmap
    exact hpop (List.map_eq_nil_iff.mp hmap)
  have hlen : idx < pop.length := by
    have h2 := argmaxIdx_lt scores hsne
    rw [List.length_map] at h2
    exact h2
  have hsc : scores.getD idx 0 = GeneticOptimizer.fitness (pop.getD idx []) s e := by
    rw [hscores]
    exact getD_map_fitness s e pop idx hlen
  have hge : ∀ ind ∈ pop, GeneticOptimizer.fitness ind s e ≤ scores.getD idx 0 := by
    intro ind hind
    exact argmaxIdx_ge scores _ (by rw [hscores]; exact List.mem_map_of_mem _ hind)
  rcases best with _ | ⟨bi0, bf0⟩
  · have hstep : (gaStep rng P s e pop none ctr).2.1 =
        some (pop.getD idx [], scores.getD idx 0) := rfl
    exact ⟨_, _, hstep, hsc, hge, fun bi bf h => by cases h⟩
  · have hstep : (gaStep rng P s e pop (some (bi0, bf0)) ctr).2.1 =
        if bf0 < scores.getD idx 0 then some (pop.getD idx [], scores.getD idx 0)
        else some (bi0, bf0) := rfl
    by_cases hlt : bf0 < scores.getD idx 0
    · rw [if_pos hlt] at hstep
      refine ⟨_, _, hstep, hsc, hge, ?_⟩
      intro bi bf h
      obtain ⟨h1, h2⟩ := Prod.mk.injEq _ _ _ _ ▸ Option.some.inj h
      rw [← h2]
      exact le_of_lt hlt
    · rw [if_neg hlt] at hstep
      refine ⟨_, _, hstep, hbest bi0 bf0 rfl, ?_, ?_⟩
      · intro ind hind
        exact le_trans (hge ind hind) (not_lt.mp hlt)
      · intro bi bf h
        obtain ⟨h1, h2⟩ := Prod.mk.injEq _ _ _ _ ▸ Option.some.inj h
        rw [← h2]

/-- The generation loop never loses fitness once a best individual is
recorded, and keeps it consistent with its recorded fitness. -/
theorem gaLoop_mono (rng : Rng) (P : GAParams) (s e : Waypoint) :
    ∀ (gens : ℕ) (pop : List (List Waypoint)) (bi : List Waypoint) (bf : ℝ)
      (ctr : ℕ), pop ≠ [] → bf = GeneticOptimizer.fitness bi s e →
      ∃ bi2 bf2, gaLoop rng P s e gens pop (some (bi, bf)) ctr =
          some (bi2, bf2) ∧
        bf2 = GeneticOptimizer.fitness bi2 s e ∧ bf ≤ bf2 := by
  intro gens
  induction gens with
  | zero =>
    intro pop bi bf ctr _ hc
    exact ⟨bi, bf, rfl, hc, le_refl bf⟩
  | succ n ih =>
    intro pop bi bf ctr hp hc
    have hb : ∀ b f, (some (bi, bf) : Option (List Waypoint × ℝ)) = some (b, f) →
        f = GeneticOptimizer.fitness b s e := by
      intro b f h
      obtain ⟨h1, h2⟩ := Prod.mk.injEq _ _ _ _ ▸ Option.some.inj h
      rw [← h2, ← h1]
      exact hc
    obtain ⟨bi1, bf1, h1, hc1, hge1, hmon1⟩ :=
      gaStep_best rng P s e pop (some (bi, bf)) ctr hp hb
    have hred : gaLoop rng P s e (n + 1) pop (some (bi, bf)) ctr =
        gaLoop rng P s e n (gaStep rng P s e pop (some (bi, bf)) ctr).1
          (gaStep rng P s e pop (some (bi, bf)) ctr).2.1
          (gaStep rng P s e pop (some (bi, bf)) ctr).2.2 := rfl
    rw [hred, h1]
    obtain ⟨bi2, bf2, h2, hc2, hmon2⟩ :=
      ih (gaStep rng P s e pop (some (bi, bf)) ctr).1 bi1 bf1
        (gaStep rng P s e pop (some (bi, bf)) ctr).2.2
        (gaStep_pop_ne rng P s e pop (some (bi, bf)) ctr) hc1
    exact ⟨bi2, bf2, h2, hc2, le_trans (hmon1 bi bf rfl) hmon2⟩

/-- At least one generation on a nonempty population yields a best individual
whose fitness dominates every member of the starting population. -/
theorem gaLoop_seeded (rng : Rng) (P : GAParams) (s e : Waypoint) (gens : ℕ)
    (pop : List (List Waypoint)) (ctr : ℕ) (hp : pop ≠ []) :
    ∃ bi bf, gaLoop rng P s e (gens + 1) pop none ctr = some (bi, bf) ∧
      bf = GeneticOptimizer.fitness bi s e ∧
      ∀ ind ∈ pop, GeneticOptimizer.fitness ind s e ≤ bf := by
  obtain ⟨bi1, bf1, h1, hc1, hge1, _⟩ := gaStep_best rng P s e pop none ctr hp
    (fun _ _ h => by cases h)
  have hred : gaLoop rng P s e (gens + 1) pop none ctr =
      gaLoop rng P s e gens (gaStep rng P s e pop none ctr).1
        (gaStep rng P s e pop none ctr).2.1
        (gaStep rng P s e pop none ctr).2.2 := rfl
  rw [hred, h1]
  obtain ⟨bi2, bf2, h2, hc2, hmon2⟩ := gaLoop_mono rng P s e gens
    (gaStep rng P s e pop none ctr).1 bi1 bf1
    (gaStep rng P s e pop none ctr).2.2
    (gaStep_pop_ne rng P s e pop none ctr) hc1
  exact ⟨bi2, bf2, h2, hc2, fun ind hind => le_trans (hge1 ind hind) hmon2⟩

/-- The initial population has exactly population_size members. -/
theorem initpop_len (rng : Rng) (opt : List Waypoint) :
    ∀ (k ctr : ℕ),
      (GeneticOptimizer.initialize_population rng opt k ctr).1.length = k := by
  intro k
  induction k with
  | zero => intro ctr; rfl
  | succ n ih =>
    intro ctr
    show (rng.shuf ctr opt ::
      (GeneticOptimizer.initialize_population rng opt n (ctr + 1)).1).length = n + 1
    rw [List.length_cons, ih]

/-- Four pairwise-distinct collinear waypoints on the x axis. -/
def wpA : Waypoint := ⟨0, 0, 0⟩

def wpB : Waypoint := ⟨1, 0, 0⟩

def wpC : Waypoint := ⟨2, 0, 0⟩

def wpD : Waypoint := ⟨3, 0, 0⟩

def inputC9 : List Waypoint := [wpA, wpB, wpC, wpD]

/-- A draw oracle whose shuffle reverses its argument; the other draws are as
in rng0. -/
def rngC9 : Rng where
  shuf _ l := l.reverse
  rint _ a _ := a
  rand _ := 1/2
  samp _ _ k := List.range k
  choi _ l := l.headD []
  shuf_perm _ l := List.reverse_perm l
  rint_le _ a b h := ⟨le_refl a, h⟩
  samp_len _ _ k _ := List.length_range k
  samp_nodup _ _ k _ := List.nodup_range k
  samp_lt _ n k hk x hx := lt_of_lt_of_le (List.mem_range.mp hx) hk
  choi_mem i l := by
    cases l with
    | nil => exact Or.inr rfl
    | cons h t => exact Or.inl (by simp [List.headD_cons])

def pC9 : GAParams := ⟨3, 1, 0, 0⟩

theorem dedupC9 :
    GeneticOptimizer.deduplicate_waypoints inputC9 = [wpA, wpB, wpC, wpD] := by
  decide

/-- The optimizer on the collinear input with a reversing shuffle returns the
interior transposed. -/
theorem optimizeC9 :
    GeneticOptimizer.optimize rngC9 pC9 inputC9 = [wpA, wpC, wpB, wpD] := by
  have hdd : GeneticOptimizer.deduplicate_waypoints inputC9 = inputC9 := dedupC9
  unfold GeneticOptimizer.optimize
  rw [if_neg (by decide : ¬ inputC9.length ≤ 2)]
  simp only [hdd]
  rw [if_neg (by decide : ¬ inputC9.length ≤ 2)]
  rw [if_neg (by decide : ¬ ((inputC9.drop 1).dropLast).length ≤ 1)]
  have hhead : inputC9.headD ⟨0, 0, 0⟩ = wpA := rfl
  have hlast : inputC9.getLastD ⟨0, 0, 0⟩ = wpD := rfl
  rw [hhead, hlast]
  have hip1 : (GeneticOptimizer.initialize_population rngC9
      ((inputC9.drop 1).dropLast) pC9.population_size 0).1 =
      [[wpC, wpB], [wpC, wpB], [wpC, wpB]] := rfl
  have hip2 : (GeneticOptimizer.initialize_population rngC9
      ((inputC9.drop 1).dropLast) pC9.population_size 0).2 = 3 := rfl
  rw [hip1, hip2]
  have hgens : pC9.generations = 1 := rfl
  rw [hgens]
  have hloop : gaLoop rngC9 pC9 wpA wpD 1 [[wpC, wpB], [wpC, wpB], [wpC, wpB]]
      none 3 = some ([wpC, wpB], GeneticOptimizer.fitness [wpC, wpB] wpA wpD) := by
    have hred : gaLoop rngC9 pC9 wpA wpD 1
        [[wpC, wpB], [wpC, wpB], [wpC, wpB]] none 3 =
        (gaStep rngC9 pC9 wpA wpD [[wpC, wpB], [wpC, wpB], [wpC, wpB]]
          none 3).2.1 := rfl
    set f := GeneticOptimizer.fitness [wpC, wpB] wpA wpD with hf
    have hstep : (gaStep rngC9 pC9 wpA wpD [[wpC, wpB], [wpC, wpB], [wpC, wpB]]
        none 3).2.1 =
        some ([[wpC, wpB], [wpC, wpB], [wpC, wpB]].getD (argmaxIdx [f, f, f]) [],
          [f, f, f].getD (argmaxIdx [f, f, f]) 0) := rfl
    have h4 : argmaxIdx [f] = 0 := rfl
    have h3 : argmaxIdx [f, f] =
        if f < [f].getD (argmaxIdx [f]) 0 then argmaxIdx [f] + 1 else 0 := rfl
    rw [h4, List.getD_cons_zero, if_neg (lt_irrefl f)] at h3
    have h2 : argmaxIdx [f, f, f] =
        if f < [f, f].getD (argmaxIdx [f, f]) 0 then argmaxIdx [f, f] + 1
        else 0 := rfl
    rw [h3, List.getD_cons_zero, if_neg (lt_irrefl f)] at h2
    rw [hred, hstep, h2]
    rfl
  rw [hloop]
  show GeneticOptimizer.deduplicate_waypoints (wpA :: ([wpC, wpB] ++ [wpD])) =
    [wpA, wpC, wpB, wpD]
  decide

theorem distR_AB : distR wpA wpB = 1 := by
  have h : distR wpA wpB =
      Real.sqrt (((1 : ℚ) : ℝ) ^ 2 + ((0 : ℚ) : ℝ) ^ 2) := rfl
  rw [h]
  norm_num

theorem distR_BC : distR wpB wpC = 1 := by
  have h : distR wpB wpC =
      Real.sqrt (((1 : ℚ) : ℝ) ^ 2 + ((0 : ℚ) : ℝ) ^ 2) := rfl
  rw [h]
  norm_num

theorem distR_CD : distR wpC wpD = 1 := by
  have h : distR wpC wpD =
      Real.sqrt (((1 : ℚ) : ℝ) ^ 2 + ((0 : ℚ) : ℝ) ^ 2) := rfl
  rw [h]
  norm_num

theorem distR_AC : distR wpA wpC = 2 := by
  have h : distR wpA wpC =
      Real.sqrt (((2 : ℚ) : ℝ) ^ 2 + ((0 : ℚ) : ℝ) ^ 2) := rfl
  rw [h]
  norm_num
  rw [show (4 : ℝ) = 2 ^ 2 by norm_num]
  exact Real.sqrt_sq (by norm_num)

theorem distR_CB : distR wpC wpB = 1 := by
  have h : distR wpC wpB =
      Real.sqrt (((-1 : ℚ) : ℝ) ^ 2 + ((0 : ℚ) : ℝ) ^ 2) := rfl
  rw [h]
  norm_num

theorem distR_BD : distR wpB wpD = 2 := by
  have h : distR wpB wpD =
      Real.sqrt (((2 : ℚ) : ℝ) ^ 2 + ((0 : ℚ) : ℝ) ^ 2) := rfl
  rw [h]
  norm_num
  rw [show (4 : ℝ) = 2 ^ 2 by norm_num]
  exact Real.sqrt_sq (by norm_num)

theorem angle_ABC : angleAt wpA wpB wpC = 0 := by
  simp only [angleAt, wpA, wpB, wpC]
  norm_num

theorem angle_BCD : angleAt wpB wpC wpD = 0 := by
  simp only [angleAt, wpB, wpC, wpD]
  norm_num

theorem angle_ACB : angleAt wpA wpC wpB = Real.pi := by
  simp only [angleAt, wpA, wpC, wpB]
  norm_num
  rw [show Real.sqrt 4 = 2 by
    rw [show (4 : ℝ) = 2 ^ 2 by norm_num]; exact Real.sqrt_sq (by norm_num)]
  norm_num

theorem angle_CBD : angleAt wpC wpB wpD = Real.pi := by
  simp only [angleAt, wpC, wpB, wpD]
  norm_num
  rw [show Real.sqrt 4 = 2 by
    rw [show (4 : ℝ) = 2 ^ 2 by norm_num]; exact Real.sqrt_sq (by norm_num)]
  norm_num

theorem pathFitness_ABCD :
    pathFitness [wpA, wpB, wpC, wpD] = 10000 / 3 + 5000 := by
  have hL : calculate_path_length [wpA, wpB, wpC, wpD] = 3 := by
    have h : calculate_path_length [wpA, wpB, wpC, wpD] =
        distR wpA wpB + (distR wpB wpC + (distR wpC wpD + 0)) := rfl
    rw [h, distR_AB, distR_BC, distR_CD]
    norm_num
  have hS : GeneticOptimizer.calculate_smoothness [wpA, wpB, wpC, wpD] = 0 := by
    have h : GeneticOptimizer.calculate_smoothness [wpA, wpB, wpC, wpD] =
        angleAt wpA wpB wpC +
          (angleAt wpB wpC wpD + GeneticOptimizer.calculate_smoothness
            [wpC, wpD]) := rfl
    rw [h, angle_ABC, angle_BCD]
    norm_num
    rfl
  have h : pathFitness [wpA, wpB, wpC, wpD] =
      if calculate_path_length [wpA, wpB, wpC, wpD] = 0 then 0
      else 10000 / calculate_path_length [wpA, wpB, wpC, wpD] +
        max 0 (1 - GeneticOptimizer.calculate_smoothness [wpA, wpB, wpC, wpD] /
          (((2 : ℕ) : ℝ) * (314159 / 100000))) * 5000 := rfl
  rw [h, hL, hS, if_neg (by norm_num : (3 : ℝ) ≠ 0)]
  norm_num

theorem pathFitness_ACBD :
    pathFitness [wpA, wpC, wpB, wpD] = 2000 := by
  have hL : calculate_path_length [wpA, wpC, wpB, wpD] = 5 := by
    have h : calculate_path_length [wpA, wpC, wpB, wpD] =
        distR wpA wpC + (distR wpC wpB + (distR wpB wpD + 0)) := rfl
    rw [h, distR_AC, distR_CB, distR_BD]
    norm_num
  have hS : GeneticOptimizer.calculate_smoothness [wpA, wpC, wpB, wpD] =
      2 * Real.pi := by
    have h : GeneticOptimizer.calculate_smoothness [wpA, wpC, wpB, wpD] =
        angleAt wpA wpC wpB +
          (angleAt wpC wpB wpD + GeneticOptimizer.calculate_smoothness
            [wpB, wpD]) := rfl
    have h0 : GeneticOptimizer.calculate_smoothness [wpB, wpD] = 0 := rfl
    rw [h, h0, angle_ACB, angle_CBD]
    ring
  have h : pathFitness [wpA, wpC, wpB, wpD] =
      if calculate_path_length [wpA, wpC, wpB, wpD] = 0 then 0
      else 10000 / calculate_path_length [wpA, wpC, wpB, wpD] +
        max 0 (1 - GeneticOptimizer.calculate_smoothness [wpA, wpC, wpB, wpD] /
          (((2 : ℕ) : ℝ) * (314159 / 100000))) * 5000 := rfl
  rw [h, hL, hS, if_neg (by norm_num : (5 : ℝ) ≠ 0)]
  have hpi : (314159 / 100000 : ℝ) < Real.pi := by
    have hp := Real.pi_gt_d6
    norm_num at hp
    linarith
  have hmaxz : max 0 (1 - 2 * Real.pi / (((2 : ℕ) : ℝ) * (314159 / 100000))) =
      (0 : ℝ) := by
    have hc : (0 : ℝ) < ((2 : ℕ) : ℝ) * (314159 / 100000) := by norm_num
    have h1 : (1 : ℝ) ≤ 2 * Real.pi / (((2 : ℕ) : ℝ) * (314159 / 100000)) := by
      rw [le_div_iff₀ hc]
      push_cast
      linarith
    exact max_eq_left (by linarith)
  rw [hmaxz]
  norm_num

/-- C9 counterexample: the fitness of the sequence returned by
GeneticOptimizer.optimize can be strictly below the fitness of the identity
ordering of the deduplicated input.  On four distinct collinear waypoints with
a reversing shuffle, zero mutation and crossover rates and one generation,
every individual of the initial population is the reversed interior, so the
returned path transposes the interior: its fitness is 2000, while the identity
ordering scores 10000/3 + 5000. -/
theorem c9_counterexample :
    pathFitness (GeneticOptimizer.optimize rngC9 pC9 inputC9) <
    pathFitness (GeneticOptimizer.deduplicate_waypoints inputC9) := by
  rw [optimizeC9, dedupC9, pathFitness_ACBD, pathFitness_ABCD]
  norm_num

/-- C9 amended: for an input with pairwise-distinct 1 mm-rounded coordinates,
at least 4 waypoints, at least one generation and a nonempty population, the
fitness of the returned sequence is at least the fitness of every member of
the actual initial population (the shuffles the generator drew); the identity
ordering itself is covered only when some shuffle produces it. -/
theorem c9_amended (rng : Rng) (P : GAParams) (input : List Waypoint)
    (hco : input.Pairwise coordNe) (hlen : 4 ≤ input.length)
    (hgen : 1 ≤ P.generations) (hpsz : 1 ≤ P.population_size) :
    ∀ ind ∈ (GeneticOptimizer.initialize_population rng
        ((input.drop 1).dropLast) P.population_size 0).1,
      GeneticOptimizer.fitness ind (input.headD ⟨0, 0, 0⟩)
        (input.getLastD ⟨0, 0, 0⟩) ≤
      pathFitness (GeneticOptimizer.optimize rng P input) := by
  have hdedup : GeneticOptimizer.deduplicate_waypoints input = input :=
    dedup_eq_self hco
  have hnd : input.Nodup := hco.imp fun h heq => h (by rw [heq])
  have h1 : ¬ input.length ≤ 2 := by omega
  have hlh : ((input.drop 1).dropLast).length = input.length - 1 - 1 := by
    rw [List.length_dropLast, List.length_drop]
  have h3 : ¬ ((input.drop 1).dropLast).length ≤ 1 := by
    rw [hlh]; omega
  unfold GeneticOptimizer.optimize
  rw [if_neg h1]
  simp only [hdedup]
  rw [if_neg h1]
  rw [if_neg h3]
  set s := input.headD ⟨0, 0, 0⟩ with hs
  set e := input.getLastD ⟨0, 0, 0⟩ with he
  set opt := (input.drop 1).dropLast with hopt
  set ip := GeneticOptimizer.initialize_population rng opt P.population_size 0
    with hip
  have hipl : ip.1.length = P.population_size :=
    initpop_len rng opt P.population_size 0
  have hipne : ip.1 ≠ [] := by
    intro hnil
    rw [hnil] at hipl
    simp at hipl
    omega
  obtain ⟨g, hg⟩ : ∃ g, P.generations = g + 1 := ⟨P.generations - 1, by omega⟩
  obtain ⟨bi, bf, hloop, hcons, hge⟩ :=
    gaLoop_seeded rng P s e g ip.1 ip.2 hipne
  rw [hg]
  simp only [hloop]
  have hlen2 : 2 ≤ input.length := by omega
  have hdec : input = s :: (opt ++ [e]) := ws_decomp input hlen2 _
  have hoptinv : GAInv opt opt :=
    ⟨((List.dropLast_sublist _).trans (List.drop_sublist _ _)).nodup hnd,
      fun x hx => hx⟩
  have hga : GAInv opt bi :=
    gaLoop_gainv rng P s e (g + 1) ip.1 none ip.2
      (fun ind hind => initpop_gainv hoptinv rng _ _ ind hind)
      (by intro bi2 bf2 hcon; cases hcon) bi bf hloop
  have hnd2 : (s :: (opt ++ [e])).Nodup := hdec ▸ hnd
  obtain ⟨hsnot, hoptE⟩ := List.nodup_cons.mp hnd2
  obtain ⟨hoptnd, hEnd, hdisj⟩ := List.nodup_append.mp hoptE
  have hmemI : ∀ x ∈ s :: (bi ++ [e]), x ∈ input := by
    intro x hx
    rcases List.mem_cons.mp hx with rfl | hx2
    · rw [hdec]; exact List.mem_cons_self _ _
    · rcases List.mem_append.mp hx2 with hx3 | hx3
      · rw [hdec]
        exact List.mem_cons_of_mem _ (List.mem_append_left _ (hga.2 x hx3))
      · rw [hdec]
        exact List.mem_cons_of_mem _ (List.mem_append_right _ hx3)
  have hnd3 : (s :: (bi ++ [e])).Nodup := by
    refine List.nodup_cons.mpr ⟨?_, ?_⟩
    · intro hx
      rcases List.mem_append.mp hx with hx2 | hx2
      · exact hsnot (List.mem_append_left _ (hga.2 s hx2))
      · exact hsnot (List.mem_append_right _ hx2)
    · refine List.nodup_append.mpr ⟨hga.1, hEnd, ?_⟩
      intro x hx hx2
      rcases List.mem_singleton.mp hx2 with rfl
      exact hdisj (hga.2 _ hx) (List.mem_singleton_self _)
  have hsymm : Symmetric coordNe := by
    intro x y hxy heq
    exact hxy heq.symm
  have hpw3 : (s :: (bi ++ [e])).Pairwise coordNe := by
    refine List.Pairwise.imp_of_mem ?_ hnd3
    intro a b ha hb hne
    exact List.Pairwise.forall hsymm hco (hmemI a ha) (hmemI b hb) hne
  rw [dedup_eq_self hpw3]
  intro ind hind
  have hfit : pathFitness (s :: (bi ++ [e])) =
      GeneticOptimizer.fitness bi s e := rfl
  rw [hfit, ← hcons]
  exact hge ind hind

/-- C9 amended, witness: the identity oracle on the four collinear waypoints
with one generation and one individual. -/
theorem c9_amended_witness :
    4 ≤ inputC9.length ∧
    ∀ ind ∈ (GeneticOptimizer.initialize_population rng0
        ((inputC9.drop 1).dropLast) 1 0).1,
      GeneticOptimizer.fitness ind (inputC9.headD ⟨0, 0, 0⟩)
        (inputC9.getLastD ⟨0, 0, 0⟩) ≤
      pathFitness (GeneticOptimizer.optimize rng0 ⟨1, 1, 0, 0⟩ inputC9) :=
  ⟨by decide, c9_amended rng0 ⟨1, 1, 0, 0⟩ inputC9 (by decide) (by decide)
    (by decide) (by decide)⟩

/-
  A lower bound on the A-star path length (claim C3, amended form).
-/

/-- The exact integer sign test signZ2 decides the sign of p + q * sqrt 2:
the lt case. -/
theorem signZ2_lt_iff (p q : ℤ) :
    signZ2 p q = Ordering.lt ↔ (p : ℝ) + (q : ℝ) * Real.sqrt 2 < 0 := by
  have hs2 : Real.sqrt 2 ^ 2 = 2 := Real.sq_sqrt (by norm_num)
  have hs2p : 0 < Real.sqrt 2 := Real.sqrt_pos.mpr (by norm_num)
  unfold signZ2
  split_ifs with h1 h2 h3 h4
  · obtain ⟨rfl, rfl⟩ := h1
    constructor
    · intro h; exact absurd h (by decide)
    · intro h; norm_num at h
  · constructor
    · intro h; exact absurd h (by decide)
    · intro h
      exfalso
      have hp : (0 : ℝ) ≤ (p : ℝ) := by exact_mod_cast h2.1
      have hq : (0 : ℝ) ≤ (q : ℝ) := by exact_mod_cast h2.2
      nlinarith
  · constructor
    · intro _
      have hp : (p : ℝ) ≤ 0 := by exact_mod_cast h3.1
      have hq : (q : ℝ) ≤ 0 := by exact_mod_cast h3.2
      by_cases hp0 : p = 0
      · have hq0 : q ≠ 0 := fun hq0 => h1 ⟨hp0, hq0⟩
        have hqlt : (q : ℝ) < 0 := by
          rcases lt_or_eq_of_le hq with h | h
          · exact h
          · exact absurd (by exact_mod_cast h : q = 0) hq0
        subst hp0
        push_cast
        nlinarith
      · have hplt : (p : ℝ) < 0 := by
          rcases lt_or_eq_of_le hp with h | h
          · exact h
          · exact absurd (by exact_mod_cast h : p = 0) hp0
        nlinarith
    · intro _; rfl
  · have hq : q < 0 := by
      by_contra hq
      exact h2 ⟨le_of_lt h4, not_lt.mp hq⟩
    have hpR : (0 : ℝ) < (p : ℝ) := by exact_mod_cast h4
    have hqR : (q : ℝ) < 0 := by exact_mod_cast hq
    rw [compare_lt_iff_lt]
    constructor
    · intro hcmp
      have hcmpR : (p : ℝ) * p < 2 * ((q : ℝ) * q) := by exact_mod_cast hcmp
      by_contra hge
      push_neg at hge
      have h5 : -(q : ℝ) * Real.sqrt 2 ≤ p := by linarith
      have h6 : (-(q : ℝ) * Real.sqrt 2) ^ 2 ≤ (p : ℝ) ^ 2 :=
        pow_le_pow_left₀ (mul_nonneg (by linarith) hs2p.le) h5 2
      rw [mul_pow, hs2] at h6
      nlinarith
    · intro hlt
      have h5 : (p : ℝ) < -(q : ℝ) * Real.sqrt 2 := by linarith
      have h6 : (p : ℝ) ^ 2 < (-(q : ℝ) * Real.sqrt 2) ^ 2 :=
        pow_lt_pow_left₀ h5 hpR.le (by norm_num)
      rw [mul_pow, hs2] at h6
      have : (p : ℝ) * p < 2 * ((q : ℝ) * q) := by nlinarith
      exact_mod_cast this
  · have hp : p ≤ 0 := not_lt.mp h4
    have hq : 0 < q := by
      by_contra hq
      exact h3 ⟨hp, not_lt.mp hq⟩
    have hplt : p < 0 := by
      by_contra hp0
      exact h2 ⟨not_lt.mp hp0, le_of_lt hq⟩
    have hpR : (p : ℝ) < 0 := by exact_mod_cast hplt
    have hqR : (0 : ℝ) < (q : ℝ) := by exact_mod_cast hq
    rw [compare_lt_iff_lt]
    constructor
    · intro hcmp
      have hcmpR : 2 * ((q : ℝ) * q) < (p : ℝ) * p := by exact_mod_cast hcmp
      by_contra hge
      push_neg at hge
      have h5 : -(p : ℝ) ≤ (q : ℝ) * Real.sqrt 2 := by linarith
      have h6 : (-(p : ℝ)) ^ 2 ≤ ((q : ℝ) * Real.sqrt 2) ^ 2 :=
        pow_le_pow_left₀ (by linarith) h5 2
      rw [mul_pow, hs2] at h6
      nlinarith
    · intro hlt
      have h5 : (q : ℝ) * Real.sqrt 2 < -(p : ℝ) := by linarith
      have h6 : ((q : ℝ) * Real.sqrt 2) ^ 2 < (-(p : ℝ)) ^ 2 :=
        pow_lt_pow_left₀ h5 (mul_nonneg hqR.le hs2p.le) (by norm_num)
      rw [mul_pow, hs2] at h6
      have : 2 * ((q : ℝ) * q) < (p : ℝ) * p := by nlinarith
      exact_mod_cast this

/-- gLt decides strict order of the denoted g-score reals. -/
theorem gLt_iff (t u : GVal) : gLt t u = true ↔ gvalR t < gvalR u := by
  unfold gLt
  rw [decide_eq_true_eq, signZ2_lt_iff]
  unfold gvalR
  constructor
  · intro h
    push_cast at h
    nlinarith [Real.sqrt_pos.mpr (show (0:ℝ) < 2 by norm_num)]
  · intro h
    push_cast
    nlinarith [Real.sqrt_pos.mpr (show (0:ℝ) < 2 by norm_num)]

/-- Octile distance of a displacement (a, b) in cell units:
min * (sqrt 2 - 1) + max, i.e. min * sqrt 2 + (max - min). -/
noncomputable def octN (a b : ℕ) : ℝ :=
  (min a b : ℝ) * (Real.sqrt 2 - 1) + (max a b : ℝ)

/-- Octile distance between two cells. -/
noncomputable def octR (u v : Cell) : ℝ :=
  octN (u.1 - v.1).natAbs (u.2 - v.2).natAbs

theorem octN_mono {a b c d : ℕ} (h1 : a ≤ c) (h2 : b ≤ d) :
    octN a b ≤ octN c d := by
  have hs1 : 1 ≤ Real.sqrt 2 := by
    nlinarith [Real.sq_sqrt (show (0:ℝ) ≤ 2 by norm_num), Real.sqrt_nonneg 2]
  unfold octN
  have hmin : (min a b : ℝ) ≤ (min c d : ℝ) := by
    exact_mod_cast min_le_min h1 h2
  have hmax : (max a b : ℝ) ≤ (max c d : ℝ) := by
    exact_mod_cast max_le_max h1 h2
  nlinarith

theorem octN_comm (a b : ℕ) : octN a b = octN b a := by
  unfold octN
  rw [min_comm, max_comm]

theorem octN_succ_succ (a b : ℕ) : octN (a + 1) (b + 1) = octN a b + Real.sqrt 2 := by
  unfold octN
  push_cast
  rw [min_add_add_right, max_add_add_right]
  ring

theorem octN_succ_left (a b : ℕ) : octN (a + 1) b ≤ octN a b + 1 := by
  have hs1 : 1 ≤ Real.sqrt 2 := by
    nlinarith [Real.sq_sqrt (show (0:ℝ) ≤ 2 by norm_num), Real.sqrt_nonneg 2]
  have hs2 : Real.sqrt 2 ≤ 2 := by
    nlinarith [Real.sq_sqrt (show (0:ℝ) ≤ 2 by norm_num), Real.sqrt_nonneg 2]
  unfold octN
  push_cast
  rcases le_total (b : ℝ) (a : ℝ) with h | h
  · rw [min_eq_right (by linarith : (b : ℝ) ≤ (a : ℝ) + 1),
      max_eq_left (by linarith : (b : ℝ) ≤ (a : ℝ) + 1),
      min_eq_right h, max_eq_left h]
    linarith
  · rcases le_total ((a : ℝ) + 1) (b : ℝ) with h2 | h2
    · rw [min_eq_left h2, max_eq_right h2, min_eq_left h, max_eq_right h]
      nlinarith
    · rw [min_eq_right (by linarith : (b : ℝ) ≤ (a : ℝ) + 1),
        max_eq_left (by linarith : (b : ℝ) ≤ (a : ℝ) + 1),
        min_eq_left h, max_eq_right h]
      nlinarith

theorem octN_succ_right (a b : ℕ) : octN a (b + 1) ≤ octN a b + 1 := by
  rw [octN_comm, octN_comm a b]
  exact octN_succ_left b a

/-- One chain step: moving to an 8-neighbor (or staying) increases the octile
distance to any fixed cell by at most the Euclidean step length. -/
theorem octR_step (u v w : Cell) (h1 : (u.1 - v.1).natAbs ≤ 1)
    (h2 : (u.2 - v.2).natAbs ≤ 1) :
    octR u w ≤ octR v w +
      Real.sqrt ((((u.1 - v.1) ^ 2 + (u.2 - v.2) ^ 2 : ℤ) : ℝ)) := by
  have hkey : ((u.1 - v.1) ^ 2 + (u.2 - v.2) ^ 2 : ℤ) =
      (((u.1 - v.1).natAbs ^ 2 + (u.2 - v.2).natAbs ^ 2 : ℕ) : ℤ) := by
    push_cast
    rw [sq_abs, sq_abs]
  have ha : (u.1 - w.1).natAbs ≤ (u.1 - v.1).natAbs + (v.1 - w.1).natAbs := by
    have := Int.natAbs_add_le (u.1 - v.1) (v.1 - w.1)
    have heq : u.1 - v.1 + (v.1 - w.1) = u.1 - w.1 := by ring
    rw [heq] at this
    exact this
  have hb : (u.2 - w.2).natAbs ≤ (u.2 - v.2).natAbs + (v.2 - w.2).natAbs := by
    have := Int.natAbs_add_le (u.2 - v.2) (v.2 - w.2)
    have heq : u.2 - v.2 + (v.2 - w.2) = u.2 - w.2 := by ring
    rw [heq] at this
    exact this
  unfold octR
  rcases Nat.le_one_iff_eq_zero_or_eq_one.mp h1 with hda | hda <;>
    rcases Nat.le_one_iff_eq_zero_or_eq_one.mp h2 with hdb | hdb <;>
      rw [hda] at ha hkey <;> rw [hdb] at hb hkey <;> rw [hkey]
  · rw [show ((((0 : ℕ) ^ 2 + 0 ^ 2 : ℕ) : ℤ) : ℝ) = 0 by norm_num, Real.sqrt_zero,
      add_zero]
    exact octN_mono (by omega) (by omega)
  · rw [show ((((0 : ℕ) ^ 2 + 1 ^ 2 : ℕ) : ℤ) : ℝ) = 1 by norm_num, Real.sqrt_one]
    calc octN (u.1 - w.1).natAbs (u.2 - w.2).natAbs ≤
        octN (v.1 - w.1).natAbs ((v.2 - w.2).natAbs + 1) :=
          octN_mono (by omega) (by omega)
      _ ≤ octN (v.1 - w.1).natAbs (v.2 - w.2).natAbs + 1 := octN_succ_right _ _
  · rw [show ((((1 : ℕ) ^ 2 + 0 ^ 2 : ℕ) : ℤ) : ℝ) = 1 by norm_num, Real.sqrt_one]
    calc octN (u.1 - w.1).natAbs (u.2 - w.2).natAbs ≤
        octN ((v.1 - w.1).natAbs + 1) (v.2 - w.2).natAbs :=
          octN_mono (by omega) (by omega)
      _ ≤ octN (v.1 - w.1).natAbs (v.2 - w.2).natAbs + 1 := octN_succ_left _ _
  · rw [show ((((1 : ℕ) ^ 2 + 1 ^ 2 : ℕ) : ℤ) : ℝ) = 2 by norm_num]
    calc octN (u.1 - w.1).natAbs (u.2 - w.2).natAbs ≤
        octN ((v.1 - w.1).natAbs + 1) ((v.2 - w.2).natAbs + 1) :=
          octN_mono (by omega) (by omega)
      _ = octN (v.1 - w.1).natAbs (v.2 - w.2).natAbs + Real.sqrt 2 :=
          octN_succ_succ _ _

/-- Distance between two cell centers: resolution times the Euclidean cell
distance. -/
theorem distR_center (g : GridManager) (hres : 0 ≤ g.resolution) (u v : Cell) :
    distR (centerWp g u.1 u.2) (centerWp g v.1 v.2) =
      ((g.resolution : ℚ) : ℝ) *
        Real.sqrt ((((u.1 - v.1) ^ 2 + (u.2 - v.2) ^ 2 : ℤ) : ℝ)) := by
  unfold distR centerWp GridManager.grid_to_world
  have hx : ((((v.2 : ℚ) + 1/2) * g.resolution - ((u.2 : ℚ) + 1/2) * g.resolution : ℚ) : ℝ) =
      (((v.2 - u.2 : ℤ) : ℚ) : ℝ) * ((g.resolution : ℚ) : ℝ) := by
    push_cast
    ring
  have hy : ((((v.1 : ℚ) + 1/2) * g.resolution - ((u.1 : ℚ) + 1/2) * g.resolution : ℚ) : ℝ) =
      (((v.1 - u.1 : ℤ) : ℚ) : ℝ) * ((g.resolution : ℚ) : ℝ) := by
    push_cast
    ring
  simp only []
  rw [hx, hy]
  have harg : ((((v.2 - u.2 : ℤ) : ℚ) : ℝ) * ((g.resolution : ℚ) : ℝ)) ^ 2 +
      ((((v.1 - u.1 : ℤ) : ℚ) : ℝ) * ((g.resolution : ℚ) : ℝ)) ^ 2 =
      ((g.resolution : ℚ) : ℝ) ^ 2 * (((u.1 - v.1) ^ 2 + (u.2 - v.2) ^ 2 : ℤ) : ℝ) := by
    push_cast
    ring
  rw [harg, Real.sqrt_mul (sq_nonneg _), Real.sqrt_sq (by exact_mod_cast hres)]

/-- Any 8-adjacency chain of cells realizes at least the octile distance
between its endpoints, scaled by the resolution. -/
theorem chain_pathlen (g : GridManager) (hres : 0 ≤ g.resolution) :
    ∀ (l : List Cell) (u v : Cell), l.head? = some u → l.getLast? = some v →
      List.Chain' (fun x y => (x.1 - y.1).natAbs ≤ 1 ∧ (x.2 - y.2).natAbs ≤ 1) l →
      ((g.resolution : ℚ) : ℝ) * octR u v ≤
        calculate_path_length (l.map fun rc => centerWp g rc.1 rc.2) := by
  intro l
  induction l with
  | nil => intro u v hu _ _; cases hu
  | cons x rest ih =>
    intro u v hu hv hch
    rw [List.head?_cons] at hu
    obtain rfl := Option.some.inj hu
    cases rest with
    | nil =>
      rw [List.getLast?_singleton] at hv
      obtain rfl := Option.some.inj hv
      have hoct : octR x x = 0 := by
        unfold octR octN
        simp
      rw [hoct, mul_zero]
      have hlen : calculate_path_length ([x].map fun rc => centerWp g rc.1 rc.2) =
          0 := rfl
      rw [hlen]
    | cons y rest2 =>
      rw [List.getLast?_cons_cons] at hv
      obtain ⟨hadj, hch2⟩ := List.chain'_cons.mp hch
      have hstep := ih y v rfl hv hch2
      have hlen : calculate_path_length ((x :: y :: rest2).map
          fun rc => centerWp g rc.1 rc.2) =
          distR (centerWp g x.1 x.2) (centerWp g y.1 y.2) +
          calculate_path_length ((y :: rest2).map fun rc => centerWp g rc.1 rc.2) :=
        rfl
      rw [hlen, distR_center g hres x y]
      have hoct := octR_step x y v hadj.1 hadj.2
      have := mul_le_mul_of_nonneg_left hoct
        (by exact_mod_cast hres : (0 : ℝ) ≤ ((g.resolution : ℚ) : ℝ))
      rw [mul_add] at this
      linarith

/-- The finite set of in-bounds cells. -/
def validCells (g : GridManager) : Finset Cell :=
  ((Finset.range g.rows) ×ˢ (Finset.range g.cols)).image
    fun p => ((p.1 : ℤ), (p.2 : ℤ))

theorem mem_validCells {g : GridManager} {x : Cell} :
    x ∈ validCells g ↔ g.is_valid x.1 x.2 = true := by
  unfold validCells GridManager.is_valid
  rw [decide_eq_true_eq]
  constructor
  · intro hx
    obtain ⟨p, hp, hpx⟩ := Finset.mem_image.mp hx
    obtain ⟨h1, h2⟩ := Finset.mem_product.mp hp
    rw [Finset.mem_range] at h1 h2
    rw [← hpx]
    dsimp only
    refine ⟨Int.ofNat_nonneg p.1, by exact_mod_cast h1, Int.ofNat_nonneg p.2,
      by exact_mod_cast h2⟩
  · intro ⟨h1, h2, h3, h4⟩
    refine Finset.mem_image.mpr ⟨(x.1.toNat, x.2.toNat), ?_, ?_⟩
    · refine Finset.mem_product.mpr ⟨Finset.mem_range.mpr ?_, Finset.mem_range.mpr ?_⟩
      · omega
      · omega
    · have e1 : ((x.1.toNat : ℤ)) = x.1 := Int.toNat_of_nonneg h1
      have e2 : ((x.2.toNat : ℤ)) = x.2 := Int.toNat_of_nonneg h3
      rw [show ((x.1.toNat, x.2.toNat) : ℕ × ℕ).1 = x.1.toNat from rfl]
      rw [show ((x.1.toNat, x.2.toNat) : ℕ × ℕ).2 = x.2.toNat from rfl]
      rw [e1, e2]

theorem validCells_card (g : GridManager) :
    (validCells g).card ≤ g.rows * g.cols := by
  calc (validCells g).card ≤ ((Finset.range g.rows) ×ˢ (Finset.range g.cols)).card :=
      Finset.card_image_le
    _ = g.rows * g.cols := by rw [Finset.card_product, Finset.card_range, Finset.card_range]

/-- The in-bounds cells whose recorded g-score is strictly below that of cur:
the termination measure of the parent-chain walk. -/
def Below (g : GridManager) (gm : Cell → Option GVal) (cur : Cell) : Finset Cell :=
  (validCells g).filter fun w =>
    (match gm w, gm cur with
      | some gw, some gc => gLt gw gc
      | _, _ => false) = true

theorem mem_Below {g : GridManager} {gm : Cell → Option GVal} {cur w : Cell} :
    w ∈ Below g gm cur ↔ w ∈ validCells g ∧
      ∃ gw gc, gm w = some gw ∧ gm cur = some gc ∧ gLt gw gc = true := by
  unfold Below
  rw [Finset.mem_filter]
  constructor
  · intro ⟨h1, h2⟩
    refine ⟨h1, ?_⟩
    rcases hw : gm w with _ | gw
    · rw [hw] at h2
      cases h2
    · rcases hc : gm cur with _ | gc
      · rw [hw, hc] at h2
        cases h2
      · rw [hw, hc] at h2
        exact ⟨gw, gc, rfl, rfl, h2⟩
  · intro ⟨h1, gw, gc, hw, hc, hlt⟩
    refine ⟨h1, ?_⟩
    rw [hw, hc]
    exact hlt

/-- The parent-chain walk of the reconstruction: with strictly decreasing
g-scores along parents, valid scored cells and parents that are either the
start or have parents themselves, the walk is a cf chain from cur down to s. -/
theorem reconstruct_chain (g : GridManager) (cf : Cell → Option Cell)
    (gm : Cell → Option GVal) (s : Cell)
    (H2 : ∀ v p, cf v = some p → ∃ gv gp, gm v = some gv ∧ gm p = some gp ∧
      gvalR gp < gvalR gv)
    (H3 : ∀ v p, cf v = some p → p = s ∨ cf p ≠ none)
    (H5 : ∀ w gw, gm w = some gw → g.is_valid w.1 w.2 = true) :
    ∀ (fuel : ℕ) (cur : Cell), (cur = s ∨ cf cur ≠ none) →
      (∀ p, cf cur = some p → (Below g gm cur).card < fuel) →
      (reconstructAux cf fuel cur).head? = some cur ∧
      (reconstructAux cf fuel cur).getLast? = some s ∧
      List.Chain' (fun x y => cf x = some y) (reconstructAux cf fuel cur) := by
  intro fuel
  induction fuel with
  | zero =>
    intro cur hroot hfuel
    rcases hc : cf cur with _ | p
    · have hcs : cur = s := by
        rcases hroot with h | h
        · exact h
        · exact absurd hc h
      rw [hcs]
      exact ⟨rfl, rfl, List.chain'_singleton _⟩
    · exact absurd (hfuel p hc) (Nat.not_lt_zero _)
  | succ n ih =>
    intro cur hroot hfuel
    rcases hc : cf cur with _ | p
    · have hcs : cur = s := by
        rcases hroot with h | h
        · exact h
        · exact absurd hc h
      have hred : reconstructAux cf (n + 1) cur = [cur] := by
        unfold reconstructAux
        rw [hc]
      rw [hred, hcs]
      exact ⟨rfl, rfl, List.chain'_singleton _⟩
    · have hred : reconstructAux cf (n + 1) cur = cur :: reconstructAux cf n p := by
        conv_lhs => rw [reconstructAux]
        rw [hc]
      have hroot2 : p = s ∨ cf p ≠ none := H3 cur p hc
      have hfuel2 : ∀ q, cf p = some q → (Below g gm p).card < n := by
        intro q hq
        obtain ⟨gcur, gp, hgcur, hgp, hdec⟩ := H2 cur p hc
        have hsub : Below g gm p ⊆ Below g gm cur := by
          intro w hw
          obtain ⟨hwv, gw, gp2, hgw, hgp2, hlt⟩ := mem_Below.mp hw
          rw [hgp] at hgp2
          obtain rfl := Option.some.inj hgp2
          refine mem_Below.mpr ⟨hwv, gw, gcur, hgw, hgcur, ?_⟩
          rw [gLt_iff] at hlt ⊢
          exact lt_trans hlt hdec
        have hpmem : p ∈ Below g gm cur :=
          mem_Below.mpr ⟨mem_validCells.mpr (H5 p gp hgp), gp, gcur, hgp, hgcur,
            (gLt_iff _ _).mpr hdec⟩
        have hpnot : p ∉ Below g gm p := by
          intro hmem
          obtain ⟨_, gw, gc, hgw, hgc, hlt⟩ := mem_Below.mp hmem
          rw [hgw] at hgc
          obtain rfl := Option.some.inj hgc
          rw [gLt_iff] at hlt
          exact lt_irrefl _ hlt
        have hss : Below g gm p ⊂ Below g gm cur :=
          (Finset.ssubset_iff_of_subset hsub).mpr ⟨p, hpmem, hpnot⟩
        have := Finset.card_lt_card hss
        have := hfuel p hc
        omega
      obtain ⟨hh, hl, hch⟩ := ih p hroot2 hfuel2
      obtain ⟨r0, rs, hrest⟩ : ∃ r0 rs, reconstructAux cf n p = r0 :: rs := by
        rcases hrec : reconstructAux cf n p with _ | ⟨r0, rs⟩
        · rw [hrec] at hh
          cases hh
        · exact ⟨r0, rs, rfl⟩
      rw [hrest] at hh hl hch
      rw [List.head?_cons] at hh
      obtain rfl := Option.some.inj hh
      rw [hred, hrest]
      refine ⟨rfl, ?_, ?_⟩
      · rw [List.getLast?_cons_cons]
        exact hl
      · exact List.Chain'.cons hc hch

theorem is_free_imp_valid (g : GridManager) (r c : ℤ)
    (h : g.is_free r c = true) : g.is_valid r c = true := by
  unfold GridManager.is_free at h
  rw [Bool.and_eq_true] at h
  exact h.1

/-- Neighbors are 8-adjacent and distinct from the center. -/
theorem neighbors_adj (g : GridManager) (r c : ℤ) :
    ∀ nb ∈ g.get_neighbors r c true,
      (nb.1 - r).natAbs ≤ 1 ∧ (nb.2 - c).natAbs ≤ 1 ∧ nb ≠ (r, c) := by
  intro nb hnb
  unfold GridManager.get_neighbors at hnb
  obtain ⟨m, hm, hsome⟩ := List.mem_filterMap.mp hnb
  split_ifs at hsome with hcond
  obtain rfl := Option.some.inj hsome
  have hm2 : m ∈ ([(-1, 0), (1, 0), (0, -1), (0, 1), (-1, -1), (-1, 1),
      (1, -1), (1, 1)] : List Cell) := by
    simpa [movesBase, movesDiag] using hm
  fin_cases hm2 <;>
    exact ⟨by dsimp only; omega, by dsimp only; omega, by
      intro hEq
      rw [Prod.mk.injEq] at hEq
      omega⟩

/-- The correctness invariant of the A-star search state: parent pointers are
adjacent, strictly g-decreasing, rooted at the start, open nodes are the start
or have parents and carry g-scores, and scored cells are in bounds. -/
def AInv (g : GridManager) (s : Cell) (st : AState) : Prop :=
  (∀ v p, st.cf v = some p → (v.1 - p.1).natAbs ≤ 1 ∧ (v.2 - p.2).natAbs ≤ 1) ∧
  (∀ v p, st.cf v = some p → ∃ gv gp, st.g v = some gv ∧ st.g p = some gp ∧
    gvalR gp < gvalR gv) ∧
  (∀ v p, st.cf v = some p → p = s ∨ st.cf p ≠ none) ∧
  (∀ e ∈ st.openl, (e.2.2 = s ∨ st.cf e.2.2 ≠ none) ∧ st.g e.2.2 ≠ none) ∧
  (∀ w gw, st.g w = some gw → g.is_valid w.1 w.2 = true)

/-- One relaxation step preserves the search invariant; parent pointers only
grow, and the g-score of the expanded node is untouched. -/
theorem expandOne_inv (g : GridManager) (s goal cur : Cell) (st : AState)
    (nb : Cell) (hnb : nb ∈ g.get_neighbors cur.1 cur.2 true)
    (hinv : AInv g s st) (hcur : cur = s ∨ st.cf cur ≠ none)
    (hgcur : st.g cur ≠ none) :
    AInv g s (expandOne g goal cur st nb) ∧
    (∀ v, st.cf v ≠ none → (expandOne g goal cur st nb).cf v ≠ none) ∧
    (expandOne g goal cur st nb).g cur = st.g cur := by
  obtain ⟨I1, I2, I3, I4, I5⟩ := hinv
  obtain ⟨hadj1, hadj2, hne⟩ := neighbors_adj g cur.1 cur.2 nb hnb
  have hnbc : nb ≠ cur := by
    intro h
    rw [h] at hne
    exact hne rfl
  have hcnb : cur ≠ nb := fun h => hnbc h.symm
  obtain ⟨gcur, hgc⟩ : ∃ gv, st.g cur = some gv := by
    rcases h : st.g cur with _ | gv
    · exact absurd h hgcur
    · exact ⟨gv, rfl⟩
  have hvalnb : g.is_valid nb.1 nb.2 = true :=
    is_free_imp_valid g nb.1 nb.2 (neighbors_free g cur.1 cur.2 true nb hnb)
  unfold expandOne
  set t : GVal := (((st.g cur).getD (0, 0)).1 + (stepCost cur nb).1,
    ((st.g cur).getD (0, 0)).2 + (stepCost cur nb).2) with ht
  have htval : gvalR gcur < gvalR t := by
    rw [hgc] at ht
    simp only [Option.getD_some] at ht
    have hstep : stepCost cur nb = (0, 1) ∨ stepCost cur nb = (1, 0) := by
      unfold stepCost
      split_ifs
      · exact Or.inl rfl
      · exact Or.inr rfl
    have hs2p : 0 < Real.sqrt 2 := Real.sqrt_pos.mpr (by norm_num)
    rcases hstep with h | h <;> rw [h] at ht <;> rw [ht] <;> unfold gvalR <;>
      push_cast <;> nlinarith
  by_cases him : (match st.g nb with
    | none => true
    | some gn => gLt t gn) = true
  · rw [if_pos him]
    have hgnb : ∀ gn, st.g nb = some gn → gvalR t < gvalR gn := by
      intro gn hgn
      rw [hgn] at him
      have him2 : gLt t gn = true := him
      exact (gLt_iff t gn).mp him2
    refine ⟨⟨?_, ?_, ?_, ?_, ?_⟩, ?_, ?_⟩
    · intro v p hvp
      simp only [] at hvp
      by_cases hv : v = nb
      · rw [if_pos hv] at hvp
        obtain rfl := Option.some.inj hvp
        rw [hv]
        exact ⟨hadj1, hadj2⟩
      · rw [if_neg hv] at hvp
        exact I1 v p hvp
    · intro v p hvp
      simp only [] at hvp
      by_cases hv : v = nb
      · rw [if_pos hv] at hvp
        obtain rfl := Option.some.inj hvp
        refine ⟨t, gcur, ?_, ?_, htval⟩
        · simp only []
          rw [if_pos hv]
        · simp only []
          rw [if_neg hcnb]
          exact hgc
      · rw [if_neg hv] at hvp
        obtain ⟨gv, gp, hgv, hgp, hdec⟩ := I2 v p hvp
        by_cases hp : p = nb
        · refine ⟨gv, t, ?_, ?_, ?_⟩
          · simp only []
            rw [if_neg hv]
            exact hgv
          · simp only []
            rw [if_pos hp]
          · have := hgnb gp (hp ▸ hgp)
            exact lt_trans this hdec
        · refine ⟨gv, gp, ?_, ?_, hdec⟩
          · simp only []
            rw [if_neg hv]
            exact hgv
          · simp only []
            rw [if_neg hp]
            exact hgp
    · intro v p hvp
      simp only [] at hvp
      by_cases hv : v = nb
      · rw [if_pos hv] at hvp
        obtain rfl := Option.some.inj hvp
        rcases hcur with h | h
        · exact Or.inl h
        · refine Or.inr ?_
          simp only []
          rw [if_neg hcnb]
          exact h
      · rw [if_neg hv] at hvp
        rcases I3 v p hvp with h | h
        · exact Or.inl h
        · refine Or.inr ?_
          simp only []
          by_cases hp : p = nb
          · rw [if_pos hp]
            exact Option.some_ne_none _
          · rw [if_neg hp]
            exact h
    · intro e he
      simp only [] at he
      rcases List.mem_append.mp he with h | h
      · obtain ⟨hd, hgne⟩ := I4 e h
        constructor
        · rcases hd with h2 | h2
          · exact Or.inl h2
          · refine Or.inr ?_
            simp only []
            by_cases hp : e.2.2 = nb
            · rw [if_pos hp]
              exact Option.some_ne_none _
            · rw [if_neg hp]
              exact h2
        · simp only []
          by_cases hp : e.2.2 = nb
          · rw [if_pos hp]
            exact Option.some_ne_none _
          · rw [if_neg hp]
            exact hgne
      · rcases List.mem_singleton.mp h with rfl
        constructor
        · exact Or.inr (by simp)
        · simp
    · intro w gw hgw
      simp only [] at hgw
      by_cases hw : w = nb
      · rw [hw]
        exact hvalnb
      · rw [if_neg hw] at hgw
        exact I5 w gw hgw
    · intro v hv
      simp only []
      by_cases hvn : v = nb
      · rw [if_pos hvn]
        exact Option.some_ne_none _
      · rw [if_neg hvn]
        exact hv
    · simp only []
      rw [if_neg hcnb]
  · rw [if_neg him]
    exact ⟨⟨I1, I2, I3, I4, I5⟩, fun v h => h, rfl⟩

/-- Relaxing all neighbors preserves the search invariant. -/
theorem expandAll_inv (g : GridManager) (s goal cur : Cell) (st : AState)
    (hinv : AInv g s st) (hcur : cur = s ∨ st.cf cur ≠ none)
    (hgcur : st.g cur ≠ none) :
    AInv g s (expandAll g goal cur st) := by
  unfold expandAll
  have haux : ∀ (L : List Cell),
      (∀ nb ∈ L, nb ∈ g.get_neighbors cur.1 cur.2 true) →
      ∀ st : AState, AInv g s st → (cur = s ∨ st.cf cur ≠ none) →
        st.g cur ≠ none →
      AInv g s (L.foldl (expandOne g goal cur) st) := by
    intro L
    induction L with
    | nil => intro _ st h _ _; exact h
    | cons nb rest ih =>
      intro hL st h hc hgn
      rw [List.foldl_cons]
      obtain ⟨h2, hmono, hgeq⟩ := expandOne_inv g s goal cur st nb
        (hL nb (List.mem_cons_self _ _)) h hc hgn
      refine ih (fun x hx => hL x (List.mem_cons_of_mem _ hx)) _ h2 ?_ ?_
      · rcases hc with h3 | h3
        · exact Or.inl h3
        · exact Or.inr (hmono cur h3)
      · rw [hgeq]
        exact hgn
  exact haux _ (fun x hx => hx) st hinv hcur hgcur

/-- Whenever the A-star loop returns a nonempty path, its length is at least
the octile distance between start and goal, scaled by the resolution. -/
theorem astarLoop_len (g : GridManager) (s goal : Cell) (hres : 0 ≤ g.resolution) :
    ∀ (fuel : ℕ) (st : AState), AInv g s st →
      astarLoop g goal fuel st ≠ [] →
      ((g.resolution : ℚ) : ℝ) * octR s goal ≤
        calculate_path_length (astarLoop g goal fuel st) := by
  intro fuel
  induction fuel with
  | zero => intro st _ hne; exact absurd rfl hne
  | succ n ih =>
    intro st hinv hne
    rcases hp : popMin st.openl with _ | ⟨e, rest⟩
    · have hred : astarLoop g goal (n + 1) st = [] := by
        unfold astarLoop
        rw [hp]
      exact absurd hred hne
    · obtain ⟨hmem, hrest⟩ := popMin_mem hp
      have hred0 : astarLoop g goal (n + 1) st =
          (if e.2.2 = goal then reconstructPath g st.cf e.2.2
            else astarLoop g goal n (expandAll g goal e.2.2
              { openl := rest, counter := st.counter, cf := st.cf,
                g := st.g })) := by
        conv_lhs => rw [astarLoop]
        rw [hp]
      by_cases hg : e.2.2 = goal
      · have hred : astarLoop g goal (n + 1) st =
            reconstructPath g st.cf e.2.2 := by
          rw [hred0, if_pos hg]
        rw [hred]
        have hcur := (hinv.2.2.2.1 e hmem).1
        have hfuel : ∀ p, st.cf e.2.2 = some p →
            (Below g st.g e.2.2).card < g.rows * g.cols + 1 := by
          intro p hp2
          have hsub : Below g st.g e.2.2 ⊆ validCells g :=
            fun w hw => (mem_Below.mp hw).1
          have h1 := Finset.card_le_card hsub
          have h2 := validCells_card g
          omega
        obtain ⟨hh, hl, hch⟩ := reconstruct_chain g st.cf st.g s hinv.2.1
          hinv.2.2.1 hinv.2.2.2.2 (g.rows * g.cols + 1) e.2.2 hcur hfuel
        unfold reconstructPath
        apply chain_pathlen g hres
          (reconstructAux st.cf (g.rows * g.cols + 1) e.2.2).reverse s goal
        · rw [List.head?_reverse]
          exact hl
        · rw [List.getLast?_reverse, hh, hg]
        · rw [List.chain'_reverse]
          refine List.Chain'.imp ?_ hch
          intro a b hab
          obtain ⟨h1, h2⟩ := hinv.1 a b hab
          refine ⟨?_, ?_⟩
          · rw [show b.1 - a.1 = -(a.1 - b.1) by ring, Int.natAbs_neg]
            exact h1
          · rw [show b.2 - a.2 = -(a.2 - b.2) by ring, Int.natAbs_neg]
            exact h2
      · have hred : astarLoop g goal (n + 1) st = astarLoop g goal n
            (expandAll g goal e.2.2
              { openl := rest, counter := st.counter, cf := st.cf, g := st.g }) := by
          rw [hred0, if_neg hg]
        obtain ⟨hd, hgne⟩ := hinv.2.2.2.1 e hmem
        have hinv1 : AInv g s
            { openl := rest, counter := st.counter, cf := st.cf, g := st.g } :=
          ⟨hinv.1, hinv.2.1, hinv.2.2.1,
            fun e2 he2 => hinv.2.2.2.1 e2 (hrest e2 he2), hinv.2.2.2.2⟩
        rw [hred] at hne ⊢
        exact ih _ (expandAll_inv g s goal e.2.2 _ hinv1 hd hgne) hne

/-- C3 amended: on an obstacle-free grid with nonnegative resolution, any
nonempty A-star result has length at least
resolution * (chebyshev * sqrt 2 + (manhattan - 2 * chebyshev)); the source
spec's formula is only a lower bound (the realized octile distance uses
min(dr, dc) where the formula uses the chebyshev max). -/
theorem c3_amended (g : GridManager) (hfree : AllFree g)
    (hres : 0 ≤ g.resolution) (s t : Cell)
    (hne : AStarPlanner.plan g s t ≠ []) :
    ((g.resolution : ℚ) : ℝ) *
      (((max (s.1 - t.1).natAbs (s.2 - t.2).natAbs : ℕ) : ℝ) * Real.sqrt 2 +
        ((((s.1 - t.1).natAbs + (s.2 - t.2).natAbs : ℕ) : ℝ) -
          2 * ((max (s.1 - t.1).natAbs (s.2 - t.2).natAbs : ℕ) : ℝ))) ≤
    calculate_path_length (AStarPlanner.plan g s t) := by
  have hs1 : 1 ≤ Real.sqrt 2 := by
    nlinarith [Real.sq_sqrt (show (0:ℝ) ≤ 2 by norm_num), Real.sqrt_nonneg 2]
  have hs2 : Real.sqrt 2 ≤ 2 := by
    nlinarith [Real.sq_sqrt (show (0:ℝ) ≤ 2 by norm_num), Real.sqrt_nonneg 2]
  have hform : ((max (s.1 - t.1).natAbs (s.2 - t.2).natAbs : ℕ) : ℝ) * Real.sqrt 2 +
      ((((s.1 - t.1).natAbs + (s.2 - t.2).natAbs : ℕ) : ℝ) -
        2 * ((max (s.1 - t.1).natAbs (s.2 - t.2).natAbs : ℕ) : ℝ)) ≤ octR s t := by
    unfold octR octN
    push_cast
    rcases le_total (((s.1 - t.1).natAbs : ℕ) : ℝ) (((s.2 - t.2).natAbs : ℕ) : ℝ)
      with h | h
    · rw [min_eq_left h, max_eq_right h]
      nlinarith
    · rw [min_eq_right h, max_eq_left h]
      nlinarith
  unfold AStarPlanner.plan at hne ⊢
  split_ifs at hne ⊢ with hok
  · rw [Bool.and_eq_true] at hok
    have hinv0 : AInv g s
        { openl := [((0, 0, 0), 0, s)], counter := 0, cf := fun _ => none,
          g := fun x => if x = s then some (0, 0) else none } := by
      refine ⟨?_, ?_, ?_, ?_, ?_⟩
      · intro v p hvp
        cases hvp
      · intro v p hvp
        cases hvp
      · intro v p hvp
        cases hvp
      · intro e he
        rcases List.mem_singleton.mp he with rfl
        exact ⟨Or.inl rfl, by simp⟩
      · intro w gw hgw
        simp only [] at hgw
        by_cases hw : w = s
        · rw [hw]
          exact is_free_imp_valid g s.1 s.2 hok.1
        · rw [if_neg hw] at hgw
          cases hgw
    refine le_trans ?_ (astarLoop_len g s t hres _ _ hinv0 hne)
    exact mul_le_mul_of_nonneg_left hform (by exact_mod_cast hres)
  · exact absurd rfl hne

/-- C3 amended, witness: the obstacle-free 4-by-2 grid from (0,0) to (3,1). -/
theorem c3_amended_witness :
    AllFree gridC3 ∧ (0 : ℚ) ≤ gridC3.resolution ∧
    AStarPlanner.plan gridC3 (0, 0) (3, 1) ≠ [] ∧
    ((gridC3.resolution : ℚ) : ℝ) *
      (((max (((0, 0) : Cell).1 - ((3, 1) : Cell).1).natAbs
          (((0, 0) : Cell).2 - ((3, 1) : Cell).2).natAbs : ℕ) : ℝ) * Real.sqrt 2 +
        ((((((0, 0) : Cell).1 - ((3, 1) : Cell).1).natAbs +
            (((0, 0) : Cell).2 - ((3, 1) : Cell).2).natAbs : ℕ) : ℝ) -
          2 * ((max (((0, 0) : Cell).1 - ((3, 1) : Cell).1).natAbs
            (((0, 0) : Cell).2 - ((3, 1) : Cell).2).natAbs : ℕ) : ℝ))) ≤
    calculate_path_length (AStarPlanner.plan gridC3 (0, 0) (3, 1)) :=
  ⟨fun _ _ _ => rfl, by decide, by decide,
    c3_amended gridC3 (fun _ _ _ => rfl) (by decide) (0, 0) (3, 1) (by decide)⟩
